import Mathlib

/-!
Verification development for the fisheye lens/globe subsystem (NQ/lens.c of
the blinky repository).

The development shallowly embeds the arithmetic and control flow of lens.c:

* Real-valued geometry (`latlon_to_ray`, `ray_to_latlon`, `plate_uv_to_ray`,
  `ray_to_plate_uv`, `determine_lens_scale`) is modelled over `ℝ`, since the
  C code computes with `sin`/`cos`/`tan`/`atan2`/`sqrt` on doubles.
* Script-independent integer/rational logic (the plate loader, plate
  selection, the lens-map writers and the two resumable map builders) is
  modelled executably over `ℤ`/`ℚ`.  The script-defined Lua functions
  (`lens_inverse`, `lens_forward`, `globe_plate`) are external inputs of
  the program and appear as oracle parameters of the models.
-/

namespace Blinky

/-- `vec3_t`: a triple of coordinates (doubles in the source). -/
structure Vec3 (α : Type) where
  x : α
  y : α
  z : α
deriving DecidableEq, Repr

/-- `DotProduct(a, b)` from mathlib.h. -/
def dot {α : Type} [CommRing α] (a b : Vec3 α) : α :=
  a.x * b.x + a.y * b.y + a.z * b.z

/-- `CrossProduct(a, b, out)` from mathlib.h: `out = a × b`. -/
def cross {α : Type} [CommRing α] (a b : Vec3 α) : Vec3 α :=
  ⟨a.y * b.z - a.z * b.y, a.z * b.x - a.x * b.z, a.x * b.y - a.y * b.x⟩

/-- Scalar multiple of a vector (the `scale` argument of `VectorMA`). -/
def vsmul {α : Type} [CommRing α] (c : α) (v : Vec3 α) : Vec3 α :=
  ⟨c * v.x, c * v.y, c * v.z⟩

/-- Componentwise vector sum. -/
def vadd {α : Type} [CommRing α] (a b : Vec3 α) : Vec3 α :=
  ⟨a.x + b.x, a.y + b.y, a.z + b.z⟩

/-- Euclidean length of a vector (`VectorLength` / the `sqrt` inside
`VectorNormalize`). -/
noncomputable def vnorm (v : Vec3 ℝ) : ℝ :=
  Real.sqrt (dot v v)

/-- `VectorNormalize` from mathlib.c: divides by the length when the length
is nonzero, and leaves the vector untouched when it is zero. -/
noncomputable def vnormalize (v : Vec3 ℝ) : Vec3 ℝ :=
  if vnorm v = 0 then v else vsmul (1 / vnorm v) v

/-- `latlon_to_ray(lat, lon, ray)` (lens.c:526): spherical coordinates to a
direction vector. -/
noncomputable def latlon_to_ray (lat lon : ℝ) : Vec3 ℝ :=
  ⟨Real.sin lon * Real.cos lat, Real.sin lat, Real.cos lon * Real.cos lat⟩

/-- C's `atan2(y, x)` (math.h semantics on finite inputs). -/
noncomputable def atan2 (y x : ℝ) : ℝ :=
  if 0 < x then Real.arctan (y / x)
  else if x < 0 then
    (if 0 ≤ y then Real.arctan (y / x) + Real.pi else Real.arctan (y / x) - Real.pi)
  else
    (if 0 < y then Real.pi / 2 else if y < 0 then -(Real.pi / 2) else 0)

/-- `ray_to_latlon(ray, &lat, &lon)` (lens.c:534); the result pair is
`(lat, lon)`. -/
noncomputable def ray_to_latlon (ray : Vec3 ℝ) : ℝ × ℝ :=
  (atan2 ray.y (Real.sqrt (ray.x * ray.x + ray.z * ray.z)), atan2 ray.x ray.z)

/-- Scaling both arguments of `atan2` by a positive factor does not change
the result. -/
theorem atan2_pos_smul {c : ℝ} (hc : 0 < c) (y x : ℝ) :
    atan2 (c * y) (c * x) = atan2 y x := by
  have hc0 : c ≠ 0 := ne_of_gt hc
  have hdiv : c * y / (c * x) = y / x := by
    rcases eq_or_ne x 0 with hx | hx
    · simp [hx]
    · field_simp
      ring
  unfold atan2
  rcases lt_trichotomy x 0 with hx | hx | hx
  · have h1 : ¬ (0 < c * x) := by nlinarith
    have h2 : c * x < 0 := by nlinarith
    have h3 : ¬ (0 < x) := by linarith
    rcases le_or_lt 0 y with hy | hy
    · have h4 : 0 ≤ c * y := by positivity
      simp [h1, h2, h3, hx, hy, h4, hdiv]
    · have h4 : ¬ (0 ≤ c * y) := by nlinarith
      have h5 : ¬ (0 ≤ y) := by linarith
      simp [h1, h2, h3, hx, h4, h5, hdiv]
  · subst hx
    have h1 : ¬ (0 < c * (0:ℝ)) := by simp
    rcases lt_trichotomy y 0 with hy | hy | hy
    · have h2 : c * y < 0 := by nlinarith
      simp [h1, h2, hy, not_lt_of_gt h2, not_lt_of_gt hy, le_of_lt]
    · subst hy; simp
    · have h2 : 0 < c * y := by nlinarith
      simp [h1, h2, hy]
  · have h1 : 0 < c * x := by nlinarith
    simp [h1, hx, hdiv]

/-- Recovering an angle in `(−π, π]` from its sine and cosine with
C's `atan2`. -/
theorem atan2_sin_cos {θ : ℝ} (h1 : -Real.pi < θ) (h2 : θ ≤ Real.pi) :
    atan2 (Real.sin θ) (Real.cos θ) = θ := by
  have hpi := Real.pi_pos
  rcases lt_trichotomy θ (Real.pi / 2) with hlt | heq | hgt
  · rcases lt_trichotomy θ (-(Real.pi / 2)) with hlt2 | heq2 | hgt2
    · -- θ ∈ (−π, −π/2): cos θ < 0, sin θ < 0
      have hcosneg : Real.cos θ < 0 := by
        have : Real.cos (-θ) < 0 := by
          apply Real.cos_neg_of_pi_div_two_lt_of_lt <;> linarith
        simpa [Real.cos_neg] using this
      have hsinneg : Real.sin θ < 0 := by
        have : 0 < Real.sin (-θ) := by
          apply Real.sin_pos_of_pos_of_lt_pi <;> linarith
        simpa [Real.sin_neg] using this
      have htan : Real.sin θ / Real.cos θ = Real.tan (θ + Real.pi) := by
        rw [Real.tan_add_pi, Real.tan_eq_sin_div_cos]
      have harc : Real.arctan (Real.tan (θ + Real.pi)) = θ + Real.pi := by
        apply Real.arctan_tan <;> linarith
      unfold atan2
      rw [if_neg (by linarith), if_pos hcosneg, if_neg (by linarith), htan, harc]
      ring
    · -- θ = −π/2
      subst heq2
      unfold atan2
      simp [Real.cos_pi_div_two, Real.sin_pi_div_two]
    · -- θ ∈ (−π/2, π/2): cos θ > 0
      have hcospos : 0 < Real.cos θ :=
        Real.cos_pos_of_mem_Ioo ⟨hgt2, hlt⟩
      have htan : Real.sin θ / Real.cos θ = Real.tan θ :=
        (Real.tan_eq_sin_div_cos θ).symm
      unfold atan2
      rw [if_pos hcospos, htan, Real.arctan_tan hgt2 hlt]
  · -- θ = π/2
    subst heq
    unfold atan2
    simp [Real.cos_pi_div_two, Real.sin_pi_div_two, hpi]
  · -- θ ∈ (π/2, π]: cos θ < 0, sin θ ≥ 0
    have hcosneg : Real.cos θ < 0 := by
      apply Real.cos_neg_of_pi_div_two_lt_of_lt hgt
      linarith
    have hsinpos : 0 ≤ Real.sin θ := by
      apply Real.sin_nonneg_of_nonneg_of_le_pi <;> linarith
    have htan : Real.sin θ / Real.cos θ = Real.tan (θ - Real.pi) := by
      rw [Real.tan_sub_pi, Real.tan_eq_sin_div_cos]
    have harc : Real.arctan (Real.tan (θ - Real.pi)) = θ - Real.pi := by
      apply Real.arctan_tan <;> linarith
    unfold atan2
    rw [if_neg (by linarith), if_pos hcosneg, if_pos hsinpos, htan, harc]
    ring

/-- C8: `latlon_to_ray` always returns a unit vector, and
`ray_to_latlon ∘ latlon_to_ray` is the identity for `lat ∈ (−π/2, π/2)`
and `lon ∈ (−π, π]`. -/
theorem claim_C8_latlon_ray_roundtrip (lat lon : ℝ) :
    vnorm (latlon_to_ray lat lon) = 1 ∧
    ((-(Real.pi / 2) < lat ∧ lat < Real.pi / 2 ∧
      -Real.pi < lon ∧ lon ≤ Real.pi) →
      ray_to_latlon (latlon_to_ray lat lon) = (lat, lon)) := by
  have hsc1 := Real.sin_sq_add_cos_sq lat
  have hsc2 := Real.sin_sq_add_cos_sq lon
  constructor
  · unfold vnorm latlon_to_ray dot
    have h : (Real.sin lon * Real.cos lat) * (Real.sin lon * Real.cos lat) +
        Real.sin lat * Real.sin lat +
        (Real.cos lon * Real.cos lat) * (Real.cos lon * Real.cos lat) = 1 := by
      nlinarith [hsc1, hsc2]
    simp only [h]
    exact Real.sqrt_one
  · rintro ⟨ha, hb, hc, hd⟩
    have hpi := Real.pi_pos
    have hcoslat : 0 < Real.cos lat := Real.cos_pos_of_mem_Ioo ⟨ha, hb⟩
    unfold ray_to_latlon latlon_to_ray
    have hsq : Real.sin lon * Real.cos lat * (Real.sin lon * Real.cos lat) +
        Real.cos lon * Real.cos lat * (Real.cos lon * Real.cos lat) =
        Real.cos lat * Real.cos lat := by
      nlinarith [hsc2]
    have hsqrt : Real.sqrt (Real.sin lon * Real.cos lat * (Real.sin lon * Real.cos lat) +
        Real.cos lon * Real.cos lat * (Real.cos lon * Real.cos lat)) = Real.cos lat := by
      rw [hsq]
      exact Real.sqrt_mul_self (le_of_lt hcoslat)
    have hlat : atan2 (Real.sin lat) (Real.cos lat) = lat := by
      apply atan2_sin_cos <;> linarith
    have hlon : atan2 (Real.sin lon * Real.cos lat) (Real.cos lon * Real.cos lat) = lon := by
      rw [mul_comm (Real.sin lon) (Real.cos lat), mul_comm (Real.cos lon) (Real.cos lat),
        atan2_pos_smul hcoslat]
      apply atan2_sin_cos hc hd
    simp only [hsqrt, hlat, hlon]

/-- Witness instantiating C8's round-trip hypothesis at `lat = 0`,
`lon = 0`. -/
theorem claim_C8_witness :
    vnorm (latlon_to_ray 0 0) = 1 ∧ ray_to_latlon (latlon_to_ray 0 0) = (0, 0) := by
  have h := claim_C8_latlon_ray_roundtrip 0 0
  have hpi := Real.pi_pos
  exact ⟨h.1, h.2 ⟨by linarith, by linarith, by linarith, by linarith⟩⟩

/-! ## Plate geometry (real-valued layer)

One entry of `globe.plates` (lens.c:192): an orthonormal camera frame, the
field of view in radians, and the camera-to-plate distance. -/

/-- One globe plate as stored in `globe.plates[i]` (geometry fields only;
the per-plate palette and display flag live in the builder-state layer). -/
structure Plate where
  forward : Vec3 ℝ
  right : Vec3 ℝ
  up : Vec3 ℝ
  fov : ℝ
  dist : ℝ

/-- `plate_uv_to_ray(plate_index, u, v, ray)` (lens.c:1576): texture
coordinates to a normalized world ray.  The source shifts `u`, `v` by 0.5,
flips `v`, accumulates `dist·forward + u'·right + v'·up` with `VectorMA`
starting from the zero vector, and normalizes. -/
noncomputable def plate_uv_to_ray (p : Plate) (u v : ℝ) : Vec3 ℝ :=
  vnormalize
    (vadd (vadd (vsmul p.dist p.forward) (vsmul (u - 1/2) p.right))
      (vsmul (-(v - 1/2)) p.up))

/-- The `(u, v)` pair computed by `ray_to_plate_uv(plate_index, ray, &u, &v)`
(lens.c:1594).  Note that the source recomputes `dist = 0.5/tan(fov/2)`
instead of reading the stored `plate.dist`. -/
noncomputable def ray_to_plate_uv (p : Plate) (ray : Vec3 ℝ) : ℝ × ℝ :=
  let x := dot p.right ray
  let y := dot p.up ray
  let z := dot p.forward ray
  let dist := 0.5 / Real.tan (p.fov / 2)
  (x / z * dist + 1/2, -y / z * dist + 1/2)

/-- The boolean result of `ray_to_plate_uv`: valid texture coordinates. -/
def ray_to_plate_uv_inside (p : Plate) (ray : Vec3 ℝ) : Prop :=
  0 ≤ (ray_to_plate_uv p ray).1 ∧ (ray_to_plate_uv p ray).1 ≤ 1 ∧
  0 ≤ (ray_to_plate_uv p ray).2 ∧ (ray_to_plate_uv p ray).2 ≤ 1

theorem dot_vsmul_right {α : Type} [CommRing α] (a : Vec3 α) (c : α) (b : Vec3 α) :
    dot a (vsmul c b) = c * dot a b := by
  simp only [dot, vsmul]
  ring

/-- C3: on a plate with an orthonormal right-handed frame, `fov ∈ (0, π)`
and the loader's `dist` invariant, `ray_to_plate_uv` inverts
`plate_uv_to_ray` exactly on `[0,1]²`, with the inside flag set. -/
theorem claim_C3_plate_uv_roundtrip (p : Plate) (u v : ℝ)
    (hff : dot p.forward p.forward = 1) (hrr : dot p.right p.right = 1)
    (huu : dot p.up p.up = 1) (hfr : dot p.forward p.right = 0)
    (hfu : dot p.forward p.up = 0) (hru : dot p.right p.up = 0)
    (_hrh : p.right = cross p.up p.forward)
    (hfov1 : 0 < p.fov) (hfov2 : p.fov < Real.pi)
    (hdist : p.dist = 0.5 / Real.tan (p.fov / 2))
    (hu0 : 0 ≤ u) (hu1 : u ≤ 1) (hv0 : 0 ≤ v) (hv1 : v ≤ 1) :
    ray_to_plate_uv p (plate_uv_to_ray p u v) = (u, v) ∧
    ray_to_plate_uv_inside p (plate_uv_to_ray p u v) := by
  have hpi := Real.pi_pos
  have htanpos : 0 < Real.tan (p.fov / 2) := by
    apply Real.tan_pos_of_pos_of_lt_pi_div_two <;> linarith
  have hd : 0 < p.dist := by
    rw [hdist]
    positivity
  set d := p.dist with hdd
  set a := u - 1/2 with ha
  set b := -(v - 1/2) with hb
  set w := vadd (vadd (vsmul d p.forward) (vsmul a p.right)) (vsmul b p.up) with hw
  simp only [dot] at hff hrr huu hfr hfu hru
  have h1 : dot p.right w = a := by
    simp only [hw, dot, vadd, vsmul]
    linear_combination d * hfr + a * hrr + b * hru
  have h2 : dot p.up w = b := by
    simp only [hw, dot, vadd, vsmul]
    linear_combination d * hfu + a * hru + b * huu
  have h3 : dot p.forward w = d := by
    simp only [hw, dot, vadd, vsmul]
    linear_combination d * hff + a * hfr + b * hfu
  have h4 : dot w w = d * d + a * a + b * b := by
    simp only [hw, dot, vadd, vsmul]
    linear_combination (d*d) * hff + (a*a) * hrr + (b*b) * huu +
      (2*d*a) * hfr + (2*d*b) * hfu + (2*a*b) * hru
  have hww : 0 < dot w w := by
    rw [h4]
    nlinarith
  have hn : 0 < vnorm w := by
    unfold vnorm
    exact Real.sqrt_pos.mpr hww
  have hnz : vnorm w ≠ 0 := ne_of_gt hn
  have hray : plate_uv_to_ray p u v = vsmul (1 / vnorm w) w := by
    unfold plate_uv_to_ray vnormalize
    rw [if_neg hnz]
  have hx : dot p.right (plate_uv_to_ray p u v) = (1 / vnorm w) * a := by
    rw [hray, dot_vsmul_right, h1]
  have hy : dot p.up (plate_uv_to_ray p u v) = (1 / vnorm w) * b := by
    rw [hray, dot_vsmul_right, h2]
  have hz : dot p.forward (plate_uv_to_ray p u v) = (1 / vnorm w) * d := by
    rw [hray, dot_vsmul_right, h3]
  have hdist2 : (0.5 : ℝ) / Real.tan (p.fov / 2) = d := hdist.symm
  have hdnz : d ≠ 0 := ne_of_gt hd
  have huv : ray_to_plate_uv p (plate_uv_to_ray p u v) = (u, v) := by
    unfold ray_to_plate_uv
    simp only [hx, hy, hz, hdist2]
    have e1 : (1 / vnorm w) * a / ((1 / vnorm w) * d) * d + 1/2 = u := by
      rw [mul_div_mul_left a d (by positivity)]
      field_simp [ha]
      ring
    have e2 : -((1 / vnorm w) * b) / ((1 / vnorm w) * d) * d + 1/2 = v := by
      rw [neg_div, mul_div_mul_left b d (by positivity)]
      field_simp [hb]
      ring
    rw [e1, e2]
  refine ⟨huv, ?_⟩
  unfold ray_to_plate_uv_inside
  rw [huv]
  exact ⟨hu0, hu1, hv0, hv1⟩

/-- The front plate of the cube globe, used to instantiate C3. -/
noncomputable def plateFrontW : Plate :=
  ⟨⟨0, 0, 1⟩, ⟨1, 0, 0⟩, ⟨0, 1, 0⟩, Real.pi / 2, 1/2⟩

/-- Witness instantiating C3 on the front cube plate at `(u, v) = (½, ½)`. -/
theorem claim_C3_witness :
    ray_to_plate_uv plateFrontW (plate_uv_to_ray plateFrontW (1/2) (1/2)) = (1/2, 1/2) ∧
    ray_to_plate_uv_inside plateFrontW (plate_uv_to_ray plateFrontW (1/2) (1/2)) := by
  have hpi := Real.pi_pos
  apply claim_C3_plate_uv_roundtrip plateFrontW (1/2) (1/2)
  · norm_num [plateFrontW, dot]
  · norm_num [plateFrontW, dot]
  · norm_num [plateFrontW, dot]
  · norm_num [plateFrontW, dot]
  · norm_num [plateFrontW, dot]
  · norm_num [plateFrontW, dot]
  · show (⟨1, 0, 0⟩ : Vec3 ℝ) = cross ⟨0, 1, 0⟩ ⟨0, 0, 1⟩
    norm_num [cross]
  · show (0:ℝ) < Real.pi / 2
    linarith
  · show Real.pi / 2 < Real.pi
    linarith
  · show (1/2 : ℝ) = 0.5 / Real.tan (Real.pi / 2 / 2)
    rw [show Real.pi / 2 / 2 = Real.pi / 4 by ring, Real.tan_pi_div_four]
    norm_num
  · norm_num
  · norm_num
  · norm_num
  · norm_num

/-! ## Plate selection (`ray_to_plate_index`, lens.c:1547)

The selection logic only uses comparisons, `DotProduct`, and the plates'
`forward` vectors, so it is modelled generically over a linear ordered
field and instantiated at `ℚ` (executable) or `ℝ`.  The scripted
`globe_plate` function is an oracle: `some n` means the script returned a
number whose value is the integer `n`; `none` means it returned a
non-number (fractional return values go through Lua's unspecified
`lua_tointeger` truncation and are not modelled). -/

/-- The `max_dp` search loop of `ray_to_plate_index`: `i` is the loop
counter, `max_dp` the best dot product so far (initially −2), `idx` the
best index so far (initially 0); an iteration updates only when
`dp > max_dp`. -/
def r2piLoop {K : Type} [LinearOrderedField K] (ray : Vec3 K) :
    List (Vec3 K) → ℤ → K → ℤ → ℤ
  | [], _, _, idx => idx
  | f :: rest, i, max_dp, idx =>
    let dp := dot ray f
    if max_dp < dp then r2piLoop ray rest (i + 1) dp i
    else r2piLoop ray rest (i + 1) max_dp idx

/-- `ray_to_plate_index(ray)` (lens.c:1547), parameterized by the scripted
`globe_plate` oracle and the list of `globe.plates[i].forward` vectors. -/
def ray_to_plate_index {K : Type} [LinearOrderedField K]
    (globe_plate : Option (Vec3 K → Option ℤ)) (forwards : List (Vec3 K))
    (ray : Vec3 K) : ℤ :=
  match globe_plate with
  | some g =>
    match g ray with
    | some n => n
    | none => -1
  | none => r2piLoop ray forwards 0 (-2) 0

theorem r2piLoop_cases {K : Type} [LinearOrderedField K] (ray : Vec3 K) :
    ∀ (l : List (Vec3 K)) (i : ℤ) (m : K) (idx : ℤ),
      r2piLoop ray l i m idx = idx ∨
      ∃ k : ℕ, k < l.length ∧ r2piLoop ray l i m idx = i + k := by
  intro l
  induction l with
  | nil => intro i m idx; left; rfl
  | cons f rest ih =>
    intro i m idx
    by_cases h : m < dot ray f
    · rcases ih (i + 1) (dot ray f) i with h2 | ⟨k, hk, h2⟩
      · right
        refine ⟨0, by simp, ?_⟩
        simp only [r2piLoop, if_pos h, h2, Nat.cast_zero, add_zero]
      · right
        refine ⟨k + 1, by simpa using Nat.add_lt_add_right hk 1, ?_⟩
        simp only [r2piLoop, if_pos h, h2]
        push_cast
        ring
    · rcases ih (i + 1) m idx with h2 | ⟨k, hk, h2⟩
      · left
        simp only [r2piLoop, if_neg h, h2]
      · right
        refine ⟨k + 1, by simpa using Nat.add_lt_add_right hk 1, ?_⟩
        simp only [r2piLoop, if_neg h, h2]
        push_cast
        ring

/-- C9: with no scripted `globe_plate` and between 1 and 6 plates,
`ray_to_plate_index` returns an index in `[0, numplates)` for every input
ray (the zero ray and non-unit rays included). -/
theorem claim_C9_plate_index_in_range {K : Type} [LinearOrderedField K]
    (forwards : List (Vec3 K)) (ray : Vec3 K)
    (h1 : 1 ≤ forwards.length) (h6 : forwards.length ≤ 6) :
    0 ≤ ray_to_plate_index none forwards ray ∧
    ray_to_plate_index none forwards ray < (forwards.length : ℤ) := by
  have hre : ray_to_plate_index (K := K) none forwards ray =
      r2piLoop ray forwards 0 (-2) 0 := rfl
  rw [hre]
  rcases r2piLoop_cases ray forwards 0 (-2) 0 with h | ⟨k, hk, h⟩
  · rw [h]
    exact ⟨le_refl 0, by omega⟩
  · rw [h]
    refine ⟨by positivity, ?_⟩
    simp only [zero_add]
    omega

/-- Witness for C9 at a concrete single-plate globe and the zero ray. -/
theorem claim_C9_witness :
    0 ≤ ray_to_plate_index (K := ℚ) none [⟨0, 0, 1⟩] ⟨0, 0, 0⟩ ∧
    ray_to_plate_index (K := ℚ) none [⟨0, 0, 1⟩] ⟨0, 0, 0⟩ <
      (([⟨0, 0, 1⟩] : List (Vec3 ℚ)).length : ℤ) :=
  claim_C9_plate_index_in_range [⟨0, 0, 1⟩] ⟨0, 0, 0⟩ (by decide) (by decide)

/-- Full characterization of the search loop: if no element beats `m` the
initial index is returned; otherwise the result is the position (offset by
`i`) of the first maximal element that beats `m`. -/
theorem r2piLoop_spec {K : Type} [LinearOrderedField K] (ray : Vec3 K) :
    ∀ (l : List (Vec3 K)) (i : ℤ) (m : K) (idx : ℤ),
      ((∀ j (hj : j < l.length), dot ray (l.get ⟨j, hj⟩) ≤ m) →
        r2piLoop ray l i m idx = idx) ∧
      ((∃ j, ∃ hj : j < l.length, m < dot ray (l.get ⟨j, hj⟩)) →
        ∃ k, ∃ hk : k < l.length,
          r2piLoop ray l i m idx = i + k ∧
          m < dot ray (l.get ⟨k, hk⟩) ∧
          (∀ j (hj : j < l.length),
            dot ray (l.get ⟨j, hj⟩) ≤ dot ray (l.get ⟨k, hk⟩)) ∧
          (∀ j (hj : j < l.length), j < k →
            dot ray (l.get ⟨j, hj⟩) < dot ray (l.get ⟨k, hk⟩))) := by
  intro l
  induction l with
  | nil =>
    intro i m idx
    refine ⟨fun _ => rfl, ?_⟩
    rintro ⟨j, hj, -⟩
    exact absurd hj (by simp)
  | cons f rest ih =>
    intro i m idx
    have hlc : (f :: rest).length = rest.length + 1 := rfl
    constructor
    · intro hall
      have hf : dot ray f ≤ m := hall 0 (by simp)
      have hrest : ∀ j (hj : j < rest.length), dot ray (rest.get ⟨j, hj⟩) ≤ m := by
        intro j hj
        exact hall (j + 1) (by simpa using Nat.add_lt_add_right hj 1)
      simp only [r2piLoop, if_neg (not_lt.mpr hf)]
      exact (ih (i + 1) m idx).1 hrest
    · rintro ⟨j, hj, hbeats⟩
      by_cases h : m < dot ray f
      · -- the head beats m; recurse with max_dp = dot ray f, idx = i
        by_cases hex : ∃ j, ∃ hj : j < rest.length, dot ray f < dot ray (rest.get ⟨j, hj⟩)
        · obtain ⟨k, hk, he, hbeat, hmax, hstrict⟩ := (ih (i + 1) (dot ray f) i).2 hex
          refine ⟨k + 1, by simpa using Nat.add_lt_add_right hk 1, ?_, ?_, ?_, ?_⟩
          · simp only [r2piLoop, if_pos h, he]
            push_cast
            ring
          · calc m < dot ray f := h
              _ < dot ray (rest.get ⟨k, hk⟩) := hbeat
          · intro j2 hj2
            match j2, hj2 with
            | 0, hj2 => exact le_of_lt hbeat
            | j2 + 1, hj2 => exact hmax j2 (by omega)
          · intro j2 hj2 hlt
            match j2, hj2 with
            | 0, hj2 => exact hbeat
            | j2 + 1, hj2 => exact hstrict j2 (by omega) (by omega)
        · push_neg at hex
          have hre : r2piLoop ray rest (i + 1) (dot ray f) i = i :=
            (ih (i + 1) (dot ray f) i).1 hex
          refine ⟨0, by simp, ?_, h, ?_, ?_⟩
          · simp only [r2piLoop, if_pos h, hre, Nat.cast_zero, add_zero]
          · intro j2 hj2
            match j2, hj2 with
            | 0, hj2 => exact le_refl _
            | j2 + 1, hj2 => exact hex j2 (by omega)
          · intro j2 hj2 hlt
            omega
      · -- the head does not beat m; it cannot be the witness
        have hf : dot ray f ≤ m := not_lt.mp h
        have hex : ∃ j, ∃ hj : j < rest.length, m < dot ray (rest.get ⟨j, hj⟩) := by
          match j, hj with
          | 0, hj => exact absurd hbeats (not_lt.mpr hf)
          | j + 1, hj => exact ⟨j, by omega, hbeats⟩
        obtain ⟨k, hk, he, hbeat, hmax, hstrict⟩ := (ih (i + 1) m idx).2 hex
        refine ⟨k + 1, by simpa using Nat.add_lt_add_right hk 1, ?_, hbeat, ?_, ?_⟩
        · simp only [r2piLoop, if_neg h, he]
          push_cast
          ring
        · intro j2 hj2
          match j2, hj2 with
          | 0, hj2 => exact le_trans hf (le_of_lt hbeat)
          | j2 + 1, hj2 => exact hmax j2 (by omega)
        · intro j2 hj2 hlt
          match j2, hj2 with
          | 0, hj2 => exact lt_of_le_of_lt hf hbeat
          | j2 + 1, hj2 => exact hstrict j2 (by omega) (by omega)

section RatEval

attribute [local semireducible] Rat.add Rat.mul Rat.inv Rat.sub

/-- C4 counterexample: with non-unit forward vectors and a ray whose dot
products all fall at or below the −2 sentinel, the loop never updates and
returns index 0 even though index 1 is the unique maximizer. -/
theorem claim_C4_counterexample :
    ray_to_plate_index (K := ℚ) none [⟨0, 0, 2⟩, ⟨0, 0, 1⟩] ⟨0, 0, -2⟩ = 0 ∧
    dot (⟨0, 0, -2⟩ : Vec3 ℚ) ⟨0, 0, 2⟩ < dot (⟨0, 0, -2⟩ : Vec3 ℚ) ⟨0, 0, 1⟩ := by
  constructor
  · decide
  · decide

end RatEval

/-- C4 as amended: the scripted path returns the script's integer (or −1
for a non-number), and the argmax-with-lowest-tie characterization of the
unscripted path holds provided some plate's dot product exceeds the −2
sentinel (automatic for unit rays and unit forward vectors); when every
dot product is ≤ −2 the loop returns index 0 unchanged. -/
theorem claim_C4_amended {K : Type} [LinearOrderedField K]
    (gp : Option (Vec3 K → Option ℤ)) (forwards : List (Vec3 K)) (ray : Vec3 K) :
    (∀ g, gp = some g →
      ray_to_plate_index gp forwards ray = (g ray).getD (-1)) ∧
    (gp = none →
      (∃ j, ∃ hj : j < forwards.length,
        (-2 : K) < dot ray (forwards.get ⟨j, hj⟩)) →
      ∃ k, ∃ hk : k < forwards.length,
        ray_to_plate_index gp forwards ray = (k : ℤ) ∧
        (∀ j (hj : j < forwards.length),
          dot ray (forwards.get ⟨j, hj⟩) ≤ dot ray (forwards.get ⟨k, hk⟩)) ∧
        (∀ j (hj : j < forwards.length), j < k →
          dot ray (forwards.get ⟨j, hj⟩) < dot ray (forwards.get ⟨k, hk⟩))) := by
  constructor
  · intro g hg
    subst hg
    show (match g ray with | some n => n | none => -1) = (g ray).getD (-1)
    cases h : g ray <;> simp [h]
  · intro hg hex
    subst hg
    obtain ⟨k, hk, he, _, hmax, hstrict⟩ := (r2piLoop_spec ray forwards 0 (-2) 0).2 hex
    exact ⟨k, hk, by simpa using he, hmax, hstrict⟩

/-- Witness for C4 on a two-plate globe where plate 1 is the unique
argmax. -/
theorem claim_C4_witness :
    ∃ k, ∃ hk : k < ([⟨0, 0, 1⟩, ⟨1, 0, 0⟩] : List (Vec3 ℚ)).length,
      ray_to_plate_index (K := ℚ) none [⟨0, 0, 1⟩, ⟨1, 0, 0⟩] ⟨2, 0, 0⟩ = (k : ℤ) ∧
      (∀ j (hj : j < ([⟨0, 0, 1⟩, ⟨1, 0, 0⟩] : List (Vec3 ℚ)).length),
        dot (⟨2, 0, 0⟩ : Vec3 ℚ) (([⟨0, 0, 1⟩, ⟨1, 0, 0⟩] : List (Vec3 ℚ)).get ⟨j, hj⟩) ≤
          dot (⟨2, 0, 0⟩ : Vec3 ℚ) (([⟨0, 0, 1⟩, ⟨1, 0, 0⟩] : List (Vec3 ℚ)).get ⟨k, hk⟩)) ∧
      (∀ j (hj : j < ([⟨0, 0, 1⟩, ⟨1, 0, 0⟩] : List (Vec3 ℚ)).length), j < k →
        dot (⟨2, 0, 0⟩ : Vec3 ℚ) (([⟨0, 0, 1⟩, ⟨1, 0, 0⟩] : List (Vec3 ℚ)).get ⟨j, hj⟩) <
          dot (⟨2, 0, 0⟩ : Vec3 ℚ) (([⟨0, 0, 1⟩, ⟨1, 0, 0⟩] : List (Vec3 ℚ)).get ⟨k, hk⟩)) :=
  (claim_C4_amended none [⟨0, 0, 1⟩, ⟨1, 0, 0⟩] ⟨2, 0, 0⟩).2 rfl
    ⟨1, by decide, by norm_num [dot]⟩

/-! ## Lens loading: map selection (`lua_lens_load`, lens.c:1287–1335)

Inputs: whether the script defined `lens_inverse` / `lens_forward`
(`lua_isfunction` on the globals), and the value of the `map` global.
`map` is modelled as `Option String`: `none` covers both an absent `map`
and a non-string value (`lua_isstring` fails and the preference is
skipped); a numeric `map` converts to its decimal digits, which never
equal `"lens_inverse"`/`"lens_forward"`, so it makes the load fail like
any other unsupported name. -/

/-- The `map_type` enumeration of `struct _lens` (lens.c:230). -/
inductive MapType
  | MAP_NONE
  | MAP_INVERSE
  | MAP_FORWARD
deriving DecidableEq, Repr

/-- The `map_type` selection performed by `lua_lens_load`; `none` means the
load fails (an unsupported `map` name). -/
def lua_lens_load_map_type (has_inverse has_forward : Bool)
    (mapVar : Option String) : Option MapType :=
  let mt := if has_inverse then MapType.MAP_INVERSE else MapType.MAP_NONE
  let mt := if has_forward then
      (if mt = MapType.MAP_NONE then MapType.MAP_FORWARD else mt)
    else mt
  match mapVar with
  | none => some mt
  | some s =>
    if s = "lens_inverse" then some MapType.MAP_INVERSE
    else if s = "lens_forward" then some MapType.MAP_FORWARD
    else none

/-- C7: after a successful load, `map_type` is the direction named by a
valid `map` string; otherwise Inverse when only `lens_inverse` is defined,
Forward when only `lens_forward` is defined, and None when neither is. -/
theorem claim_C7_map_type_selection (hi hf : Bool) (m : Option String)
    (mt : MapType) (hs : lua_lens_load_map_type hi hf m = some mt) :
    (m = some "lens_inverse" → mt = MapType.MAP_INVERSE) ∧
    (m = some "lens_forward" → mt = MapType.MAP_FORWARD) ∧
    (m = none →
      (hi = true ∧ hf = false → mt = MapType.MAP_INVERSE) ∧
      (hi = false ∧ hf = true → mt = MapType.MAP_FORWARD) ∧
      (hi = false ∧ hf = false → mt = MapType.MAP_NONE)) := by
  refine ⟨?_, ?_, ?_⟩
  · rintro rfl
    simp [lua_lens_load_map_type] at hs
    exact hs.symm
  · rintro rfl
    simp [lua_lens_load_map_type] at hs
    exact hs.symm
  · rintro rfl
    refine ⟨?_, ?_, ?_⟩ <;> rintro ⟨rfl, rfl⟩ <;>
      simpa [lua_lens_load_map_type] using hs.symm

/-- Witness for C7: both maps defined, `map = "lens_forward"` forces the
forward direction. -/
theorem claim_C7_witness :
    (some "lens_forward" = some "lens_inverse" →
      MapType.MAP_FORWARD = MapType.MAP_INVERSE) ∧
    (some "lens_forward" = some "lens_forward" →
      MapType.MAP_FORWARD = MapType.MAP_FORWARD) ∧
    (some "lens_forward" = (none : Option String) →
      (true = true ∧ true = false → MapType.MAP_FORWARD = MapType.MAP_INVERSE) ∧
      (true = false ∧ true = true → MapType.MAP_FORWARD = MapType.MAP_FORWARD) ∧
      (true = false ∧ true = false → MapType.MAP_FORWARD = MapType.MAP_NONE)) :=
  claim_C7_map_type_selection true true (some "lens_forward") MapType.MAP_FORWARD
    (by decide)

/-! ## Globe loading (`lua_globe_load`, lens.c:1138–1261)

The loader inspects the `plates` global.  Lua values are modelled by
`LuaVal`; numeric strings (which `lua_isnumber`/`lua_tonumber` coerce)
are represented directly with the `num` constructor, `str` covers
non-numeric strings.  `lua_next` enumerates the sequence in order; tables
are modelled as sequences (the only shape the scripts' contract allows). -/

/-- A Lua value, as far as the loader inspects one. -/
inductive LuaVal
  | nil
  | boolean (b : Bool)
  | num (q : ℚ)
  | str (s : String)
  | tbl (elems : List LuaVal)
  | fn

/-- `lua_rawgeti(t, k)` for `k ≥ 1`; indexing a non-table is a Lua API
violation in C, modelled as producing `nil`. -/
def rawget (v : LuaVal) (k : ℕ) : LuaVal :=
  match v with
  | .tbl l => (l.get? (k - 1)).getD .nil
  | _ => .nil

/-- `lua_tonumber`: the numeric value, or 0 when the value is not
convertible. -/
def tonumber : LuaVal → ℚ
  | .num q => q
  | _ => 0

/-- One plate record as filled in by the loader: `forward` and the
re-orthogonalized `right`/`up` (`right = up × forward`, then
`up = forward × right`), plus the field of view.  The C stores
`fov = fov_deg·π/180` and `dist = 0.5/tan(fov/2)`; both are monotone
images of the degree value checked by the loader, so the record keeps the
degrees (the positivity check `fov ≤ 0` is equivalent to `fov_deg ≤ 0`,
and `dist` is computed only after that check passes). -/
structure GPlate where
  forward : Vec3 ℚ
  right : Vec3 ℚ
  up : Vec3 ℚ
  fov_deg : ℚ
deriving DecidableEq, Repr

/-- The forward/up vector check of the loader: `lua_istable`, `lua_rawlen
== 3`, and three `lua_isnumber` element checks. -/
def readVec3 (v : LuaVal) : Option (Vec3 ℚ) :=
  match v with
  | .tbl [LuaVal.num x, LuaVal.num y, LuaVal.num z] => some ⟨x, y, z⟩
  | _ => none

/-- The per-plate body of the loader's `lua_next` iteration
(lens.c:1182–1255).  A non-number `fov` only logs (the `if` lacks a
`return`), then `lua_tonumber` yields 0 and the `fov ≤ 0` check aborts. -/
def load_plate (e : LuaVal) : Option GPlate :=
  match readVec3 (rawget e 1) with
  | none => none
  | some f =>
    match readVec3 (rawget e 2) with
    | none => none
    | some upRaw =>
      let right := cross upRaw f
      let up := cross f right
      let fov_deg := tonumber (rawget e 3)
      if fov_deg ≤ 0 then none
      else some ⟨f, right, up, fov_deg⟩

/-- `lua_globe_load` (validation portion): requires `plates` to be a table
of raw length ≥ 1, then loads every element in order.  There is no upper
bound check on the length. -/
def lua_globe_load (plates : LuaVal) : Option (List GPlate) :=
  match plates with
  | .tbl l => if l.length < 1 then none else l.mapM load_plate
  | _ => none

/-- One well-formed cube-style plate value:
`{ { 0, 0, 1 }, { 0, 1, 0 }, 90 }`. -/
def goodPlateVal : LuaVal :=
  .tbl [.tbl [.num 0, .num 0, .num 1], .tbl [.num 0, .num 1, .num 0], .num 90]

section RatEvalC2

attribute [local semireducible] Rat.add Rat.mul Rat.inv Rat.sub

/-- C2 (code bug): a `plates` sequence with 7 well-formed entries is
accepted — the loader has no upper-bound check, returns success and sets
`numplates = 7`, although `globe.plates` has room for `MAX_PLATES = 6`
entries (the 7th iteration writes past the end of the array in C). -/
theorem claim_C2_seven_plates_accepted :
    (lua_globe_load (LuaVal.tbl (List.replicate 7 goodPlateVal))).map
      List.length = some 7 := by
  decide

end RatEvalC2

/-! ## Lens scale determination (`determine_lens_scale`, lens.c:1363)

The scripted `lens_forward` is an oracle.  `lua_lens_forward` (lens.c:1036)
returns status 1 with `(x, y)` on two numeric results, 0 on a single nil,
and −1 on a malformed return — in the −1 case `determine_lens_scale`'s
`if (lua_lens_forward(ray,&x,&y))` still takes the success branch and reads
the uninitialized doubles `x`, `y`; those indeterminate values are the
explicit `garbage` parameters of the model.

The FOV-attached frame dimension is a pointer `framesize` to either
`lens.width_px` (after `hfov`) or `lens.height_px` (after `vfov`),
modelled by the flag `fsel`; all the source's comparisons dereference it
(`*framesize == lens.width_px` compares values, not pointers). -/

/-- Result of one `lua_lens_forward` call. -/
inductive LensForwardRes
  | xy (x y : ℝ)
  | skip
  | err

/-- The state read by `determine_lens_scale`. -/
structure ScaleParams where
  fit : Bool
  hfit : Bool
  vfit : Bool
  fov : ℝ
  max_hfov : ℝ
  max_vfov : ℝ
  lens_width : ℝ
  lens_height : ℝ
  width_px : ℤ
  height_px : ℤ
  fsel : Bool
  lens_forward : Option (Vec3 ℝ → LensForwardRes)
  garbage : ℝ × ℝ

/-- The value of `*framesize`. -/
def framesizeVal (p : ScaleParams) : ℤ :=
  if p.fsel then p.width_px else p.height_px

open Classical in
/-- `determine_lens_scale` (lens.c:1363–1468): `some scale` on success
(return 1 with `lens.scale = scale`), `none` on any failing path
(return 0).  The final `lens.scale ≤ 0` validation applies to every
branch. -/
noncomputable def determine_lens_scale (p : ScaleParams) : Option ℝ :=
  let scaleRes : Option ℝ :=
    if p.fit = false ∧ p.hfit = false ∧ p.vfit = false then
      if p.max_hfov ≤ 0 ∨ p.max_vfov ≤ 0 then none
      else if p.width_px = framesizeVal p ∧ p.max_hfov < p.fov then none
      else if p.height_px = framesizeVal p ∧ p.max_vfov < p.fov then none
      else
        match p.lens_forward with
        | none => none
        | some f =>
          if framesizeVal p = p.width_px then
            match f (latlon_to_ray 0 (p.fov * 0.5)) with
            | .xy x _ => some (x / ((framesizeVal p : ℝ) * 0.5))
            | .skip => none
            | .err => some (p.garbage.1 / ((framesizeVal p : ℝ) * 0.5))
          else if framesizeVal p = p.height_px then
            match f (latlon_to_ray (p.fov * 0.5) 0) with
            | .xy _ y => some (y / ((framesizeVal p : ℝ) * 0.5))
            | .skip => none
            | .err => some (p.garbage.2 / ((framesizeVal p : ℝ) * 0.5))
          else none
    else if p.hfit = true then
      if p.lens_width ≤ 0 then none
      else some (p.lens_width / (p.width_px : ℝ))
    else if p.vfit = true then
      if p.lens_height ≤ 0 then none
      else some (p.lens_height / (p.height_px : ℝ))
    else
      if p.lens_width ≤ 0 ∧ 0 < p.lens_height then
        some (p.lens_height / (p.height_px : ℝ))
      else if p.lens_height ≤ 0 ∧ 0 < p.lens_width then
        some (p.lens_width / (p.width_px : ℝ))
      else if p.lens_height ≤ 0 ∧ p.lens_width ≤ 0 then none
      else if (p.width_px : ℝ) / (p.height_px : ℝ) < p.lens_width / p.lens_height then
        some (p.lens_width / (p.width_px : ℝ))
      else
        some (p.lens_height / (p.height_px : ℝ))
  match scaleRes with
  | none => none
  | some s => if s ≤ 0 then none else some s

/-- The `lens_forward` of the C1 counterexample: a (legal) script that
projects every ray to the fixed point `(2, 1)`. -/
noncomputable def c1fwd : Vec3 ℝ → LensForwardRes :=
  fun _ => LensForwardRes.xy 2 1

/-- C1 counterexample state: an explicit `vfov` is active
(`framesize = &lens.height_px`), the viewport is square
(`width_px = height_px = 100`), `fov = 1 rad`, limits 2 rad. -/
noncomputable def c1cex : ScaleParams :=
  { fit := false, hfit := false, vfit := false
    fov := 1, max_hfov := 2, max_vfov := 2
    lens_width := 0, lens_height := 0
    width_px := 100, height_px := 100
    fsel := false
    lens_forward := some c1fwd
    garbage := (0, 0) }

/-- C1 counterexample: with an explicit vfov on a square viewport the
branch test `*framesize == lens.width_px` also fires (the comparison is by
value), so the code probes `latlon_to_ray(0, fov/2)` and uses the x
coordinate: the scale is `2/50 = 1/25`, not the claimed
`|y|/(framesize/2) = |1|/50`. -/
theorem claim_C1_counterexample :
    c1cex.fsel = false ∧
    c1fwd (latlon_to_ray (c1cex.fov * 0.5) 0) = LensForwardRes.xy 2 1 ∧
    determine_lens_scale c1cex = some (1/25) ∧
    (1/25 : ℝ) ≠ |(1 : ℝ)| / ((framesizeVal c1cex : ℝ) * 0.5) := by
  refine ⟨rfl, rfl, ?_, ?_⟩
  · unfold determine_lens_scale
    norm_num [c1cex, c1fwd, framesizeVal]
  · norm_num [c1cex, framesizeVal]

/-- C1 as amended: when an explicit FOV is active and scale determination
succeeds, the probe and axis are chosen by the value comparison
`*framesize == lens.width_px` — the horizontal probe
`latlon_to_ray(0, fov/2)` with its x coordinate whenever `*framesize`
equals `width_px` (always under `hfov`, and also under `vfov` when
`height_px = width_px`), else the vertical probe `latlon_to_ray(fov/2, 0)`
with its y coordinate; the scale is the absolute probe coordinate over
`framesize/2`.  (The absolute value is forced by the final `scale > 0`
validation.)  The hypotheses exclude the malformed-return case, in which C
reads uninitialized memory. -/
theorem claim_C1_amended (p : ScaleParams) (s : ℝ)
    (hmode : p.fit = false ∧ p.hfit = false ∧ p.vfit = false)
    (hW : 0 < p.width_px) (hH : 0 < p.height_px)
    (f : Vec3 ℝ → LensForwardRes) (hf : p.lens_forward = some f)
    (herr1 : f (latlon_to_ray 0 (p.fov * 0.5)) ≠ LensForwardRes.err)
    (herr2 : f (latlon_to_ray (p.fov * 0.5) 0) ≠ LensForwardRes.err)
    (hs : determine_lens_scale p = some s) :
    (framesizeVal p = p.width_px →
      ∃ x y, f (latlon_to_ray 0 (p.fov * 0.5)) = LensForwardRes.xy x y ∧
        s = |x| / ((framesizeVal p : ℝ) * 0.5)) ∧
    (framesizeVal p ≠ p.width_px →
      ∃ x y, f (latlon_to_ray (p.fov * 0.5) 0) = LensForwardRes.xy x y ∧
        s = |y| / ((framesizeVal p : ℝ) * 0.5)) := by
  obtain ⟨h1, h2, h3⟩ := hmode
  unfold determine_lens_scale at hs
  rw [h1, h2, h3, hf] at hs
  have hcond : ((false = false ∧ false = false ∧ false = false) : Prop) :=
    ⟨rfl, rfl, rfl⟩
  rw [if_pos hcond] at hs
  by_cases hA : p.max_hfov ≤ 0 ∨ p.max_vfov ≤ 0
  · rw [if_pos hA] at hs
    exact absurd hs (by simp)
  rw [if_neg hA] at hs
  by_cases hB : p.width_px = framesizeVal p ∧ p.max_hfov < p.fov
  · rw [if_pos hB] at hs
    exact absurd hs (by simp)
  rw [if_neg hB] at hs
  by_cases hC : p.height_px = framesizeVal p ∧ p.max_vfov < p.fov
  · rw [if_pos hC] at hs
    exact absurd hs (by simp)
  rw [if_neg hC] at hs
  dsimp only at hs
  constructor
  · intro hfs
    rw [if_pos hfs] at hs
    cases hp : f (latlon_to_ray 0 (p.fov * 0.5)) with
    | xy x y =>
      rw [hp] at hs
      dsimp only at hs
      refine ⟨x, y, rfl, ?_⟩
      by_cases hD : x / ((framesizeVal p : ℝ) * 0.5) ≤ 0
      · rw [if_pos hD] at hs
        exact absurd hs (by simp)
      · rw [if_neg hD] at hs
        have hsx : x / ((framesizeVal p : ℝ) * 0.5) = s :=
          Option.some_injective _ hs
        push_neg at hD
        have hfs2 : (0 : ℝ) < (framesizeVal p : ℝ) * 0.5 := by
          rw [hfs]
          have hWr : (0 : ℝ) < (p.width_px : ℝ) := by exact_mod_cast hW
          nlinarith
        have hxpos : 0 < x := by
          by_contra hxle
          push_neg at hxle
          have : x / ((framesizeVal p : ℝ) * 0.5) ≤ 0 :=
            div_nonpos_of_nonpos_of_nonneg hxle (le_of_lt hfs2)
          linarith
        rw [abs_of_pos hxpos, hsx]
    | skip =>
      rw [hp] at hs
      exact absurd hs (by simp)
    | err => exact absurd hp herr1
  · intro hfs
    rw [if_neg hfs] at hs
    have hfsH : framesizeVal p = p.height_px := by
      unfold framesizeVal at hfs ⊢
      cases hp : p.fsel with
      | true => rw [hp] at hfs; simp at hfs
      | false => simp
    rw [if_pos hfsH] at hs
    cases hp : f (latlon_to_ray (p.fov * 0.5) 0) with
    | xy x y =>
      rw [hp] at hs
      dsimp only at hs
      refine ⟨x, y, rfl, ?_⟩
      by_cases hD : y / ((framesizeVal p : ℝ) * 0.5) ≤ 0
      · rw [if_pos hD] at hs
        exact absurd hs (by simp)
      · rw [if_neg hD] at hs
        have hsy : y / ((framesizeVal p : ℝ) * 0.5) = s :=
          Option.some_injective _ hs
        push_neg at hD
        have hfs2 : (0 : ℝ) < (framesizeVal p : ℝ) * 0.5 := by
          rw [hfsH]
          have hHr : (0 : ℝ) < (p.height_px : ℝ) := by exact_mod_cast hH
          nlinarith
        have hypos : 0 < y := by
          by_contra hyle
          push_neg at hyle
          have : y / ((framesizeVal p : ℝ) * 0.5) ≤ 0 :=
            div_nonpos_of_nonpos_of_nonneg hyle (le_of_lt hfs2)
          linarith
        rw [abs_of_pos hypos, hsy]
    | skip =>
      rw [hp] at hs
      exact absurd hs (by simp)
    | err => exact absurd hp herr2

/-- The `lens_forward` of the C1 witness: projects every ray to `(3, 4)`. -/
noncomputable def c1wfwd : Vec3 ℝ → LensForwardRes :=
  fun _ => LensForwardRes.xy 3 4

/-- C1 witness state: explicit hfov on a 100×50 viewport. -/
noncomputable def c1wit : ScaleParams :=
  { fit := false, hfit := false, vfit := false
    fov := 1, max_hfov := 2, max_vfov := 2
    lens_width := 0, lens_height := 0
    width_px := 100, height_px := 50
    fsel := true
    lens_forward := some c1wfwd
    garbage := (0, 0) }

/-- Witness for the amended C1 at the hfov-style state `c1wit`. -/
theorem claim_C1_witness :
    ∃ x y, c1wfwd (latlon_to_ray 0 (c1wit.fov * 0.5)) = LensForwardRes.xy x y ∧
      (3/50 : ℝ) = |x| / ((framesizeVal c1wit : ℝ) * 0.5) :=
  (claim_C1_amended c1wit (3/50) ⟨rfl, rfl, rfl⟩ (by norm_num [c1wit])
    (by norm_num [c1wit])
    c1wfwd rfl (by simp [c1wfwd]) (by simp [c1wfwd])
    (by unfold determine_lens_scale
        norm_num [c1wit, c1wfwd, framesizeVal])).1 rfl

/-! ## Lens-map state and writers (lens.c:1474–1544)

`lens.pixels[·]` stores a pointer `GLOBEPIXEL(plate, px, py)`, modelled as
the triple `(plate, px, py)`; `lens.pixel_tints[·]` stores a byte
(255 = no tint); `globe.plates[i].display` is a flag.  All three are total
functions so that reads outside the written region simply return the prior
contents. -/

/-- The mutable lens-map state touched by the builders. -/
structure LMState where
  pix : ℤ → ℤ → Option (ℤ × ℤ × ℤ)
  tint : ℤ → ℤ → ℤ
  disp : ℤ → Bool

/-- Geometry and rubix-grid parameters read by the lens-map writers. -/
structure MapParams where
  width_px : ℤ
  height_px : ℤ
  platesize : ℤ
  numcells : ℤ
  cell_size : ℚ
  pad_size : ℚ

/-- C's `(int)` cast of a double: truncation toward zero. -/
def cTrunc (q : ℚ) : ℤ :=
  if q < 0 then -((-q).floor) else q.floor

/-- C99 `fmod(a, b) = a − b·trunc(a/b)` (finite inputs, `b ≠ 0`; the
rubix parameters are positive in every use below, `b = pad + cell > 0`). -/
def cfmod (a b : ℚ) : ℚ :=
  a - b * (cTrunc (a / b) : ℚ)

/-- `set_lensmap_grid` (lens.c:1474): writes the plate index into the tint
map unless the plate pixel lies on a rubix grid line. -/
def set_lensmap_grid (P : MapParams) (lx ly px py plate_index : ℤ)
    (st : LMState) : LMState :=
  let block_size : ℚ := P.pad_size + P.cell_size
  let num_units : ℚ := (P.numcells : ℚ) * block_size + P.pad_size
  let unit_size_px : ℚ := (P.platesize : ℚ) / num_units
  let ux : ℚ := (px : ℚ) / unit_size_px
  let uy : ℚ := (py : ℚ) / unit_size_px
  let ongrid :=
    cfmod ux block_size < P.pad_size ∨ cfmod uy block_size < P.pad_size
  if ongrid then st
  else
    { st with
      tint := fun a b => if a = lx ∧ b = ly then plate_index else st.tint a b }

/-- `set_lensmap_from_plate` (lens.c:1515): bounds-checks the lens and
plate coordinates, then records the display flag, the pixel pointer and
the grid tint. -/
def set_lensmap_from_plate (P : MapParams) (lx ly px py plate_index : ℤ)
    (st : LMState) : LMState :=
  if lx < 0 ∨ P.width_px ≤ lx ∨ ly < 0 ∨ P.height_px ≤ ly then st
  else if px < 0 ∨ P.platesize ≤ px ∨ py < 0 ∨ P.platesize ≤ py then st
  else
    let st1 :=
      { st with disp := fun i => if i = plate_index then true else st.disp i }
    let st2 :=
      { st1 with
        pix := fun a b =>
          if a = lx ∧ b = ly then some (plate_index, px, py) else st1.pix a b }
    set_lensmap_grid P lx ly px py plate_index st2

/-- C10: a call of `set_lensmap_from_plate` with any coordinate outside
`[0, width_px) × [0, height_px)` or `[0, platesize)²` returns with the
state — pixels, tints and display flags — unchanged. -/
theorem claim_C10_out_of_range_writes_nothing (P : MapParams) (st : LMState)
    (lx ly px py plate_index : ℤ)
    (h : ¬(0 ≤ lx ∧ lx < P.width_px ∧ 0 ≤ ly ∧ ly < P.height_px ∧
           0 ≤ px ∧ px < P.platesize ∧ 0 ≤ py ∧ py < P.platesize)) :
    set_lensmap_from_plate P lx ly px py plate_index st = st := by
  unfold set_lensmap_from_plate
  by_cases h1 : lx < 0 ∨ P.width_px ≤ lx ∨ ly < 0 ∨ P.height_px ≤ ly
  · rw [if_pos h1]
  · rw [if_neg h1]
    have h2 : px < 0 ∨ P.platesize ≤ px ∨ py < 0 ∨ P.platesize ≤ py := by
      push_neg at h h1
      omega
    rw [if_pos h2]

/-- The all-clear lens-map state after a viewport (re)allocation:
`lens.pixels` zeroed, `lens.pixel_tints` set to 255, no display flags. -/
def blankLM : LMState :=
  ⟨fun _ _ => none, fun _ _ => 255, fun _ => false⟩

/-- Default map parameters for concrete instances: 13×13 viewport, plate
size 3, rubix grid 10/4/1 (the `rubixgrid` defaults). -/
def demoMP : MapParams :=
  ⟨13, 13, 3, 10, 4, 1⟩

/-- Witness for C10: a call with `lx = −1` leaves the blank state
untouched. -/
theorem claim_C10_witness :
    set_lensmap_from_plate demoMP (-1) 0 0 0 0 blankLM = blankLM :=
  claim_C10_out_of_range_writes_nothing demoMP blankLM (-1) 0 0 0 0
    (by decide)

/-! ## The inverse lens-map builder (lens.c:991, 1536–1671)

The scripted `lens_inverse` is modelled by its raw return values (a list
of Lua values per call, a pure function of the lens coordinates);
`lua_lens_inverse` classifies them exactly as the C switch does.  The C
normalizes the returned ray (`VectorNormalize`) before use: normalization
scales the components by a positive factor, which the control-flow and
untouched-pixel facts below never depend on, so the model keeps the raw
components. -/

/-- Classified result of one `lua_lens_inverse` call (status 1 / 0 / −1 of
lens.c:991). -/
inductive InvStatus
  | ray (r : Vec3 ℚ)
  | skip
  | err
deriving DecidableEq

/-- The classification switch of `lua_lens_inverse` on the script's return
values: three numbers → a ray; a single nil → skip; anything else → error. -/
def lua_lens_inverse (ret : List LuaVal) : InvStatus :=
  match ret with
  | [LuaVal.num x, LuaVal.num y, LuaVal.num z] => .ray ⟨x, y, z⟩
  | [_, _, _] => .err
  | [LuaVal.nil] => .skip
  | [_] => .err
  | _ => .err

/-- One plate as the builder reads it: the frame vectors and the stored
`dist`.  (`ray_to_plate_uv` recomputes `dist = 0.5/tan(fov/2)`, equal to
the stored field by the loader invariant at lens.c:1254; the rational
model reads the stored value, `tan` being unavailable over `ℚ`.) -/
structure BPlate where
  forward : Vec3 ℚ
  right : Vec3 ℚ
  up : Vec3 ℚ
  dist : ℚ
deriving DecidableEq

/-- Rational-model `ray_to_plate_uv` (lens.c:1594): the `(u, v)` pair and
the inside flag.  With `z = 0` the C divisions produce non-finite values
that fail every range check, so the flag carries an explicit `z ≠ 0`
conjunct (over `ℚ`, `x/0 = 0` would otherwise report inside). -/
def ray_to_plate_uv_q (p : BPlate) (ray : Vec3 ℚ) : (ℚ × ℚ) × Bool :=
  let x := dot p.right ray
  let y := dot p.up ray
  let z := dot p.forward ray
  let u := x / z * p.dist + 1/2
  let v := -y / z * p.dist + 1/2
  ((u, v), decide (z ≠ 0 ∧ 0 ≤ u ∧ u ≤ 1 ∧ 0 ≤ v ∧ v ≤ 1))

/-- `set_lensmap_from_plate_uv` (lens.c:1537): texture coordinates to
plate pixels by truncation. -/
def set_lensmap_from_plate_uv (P : MapParams) (lx ly : ℤ) (u v : ℚ)
    (plate_index : ℤ) (st : LMState) : LMState :=
  let px := cTrunc (u * (P.platesize : ℚ))
  let py := cTrunc (v * (P.platesize : ℚ))
  set_lensmap_from_plate P lx ly px py plate_index st

/-- Parameters of the inverse builder: the writer parameters, the lens
scale, the loaded plates, and the two script oracles. -/
structure InvParams extends MapParams where
  scale : ℚ
  plates : List BPlate
  globe_plate : Option (Vec3 ℚ → Option ℤ)
  lens_inverse : ℚ → ℚ → List LuaVal

/-- `set_lensmap_from_ray` (lens.c:1611).  A scripted `globe_plate` may
return an out-of-range index, in which case `ray_to_plate_uv` in C reads
past the `plates` array (undefined behavior) — modelled by a zero plate. -/
def set_lensmap_from_ray (P : InvParams) (lx ly : ℤ) (ray : Vec3 ℚ)
    (st : LMState) : LMState :=
  let plate_index :=
    ray_to_plate_index P.globe_plate (P.plates.map BPlate.forward) ray
  if plate_index < 0 then st
  else
    let p := P.plates.getD plate_index.toNat ⟨⟨0, 0, 0⟩, ⟨0, 0, 0⟩, ⟨0, 0, 0⟩, 0⟩
    let r := ray_to_plate_uv_q p ray
    if r.2 then
      set_lensmap_from_plate_uv P.toMapParams lx ly r.1.1 r.1.2 plate_index st
    else st

/-- The lens-space x of output column `lx`
(`x = (lx − width_px/2)·scale`, integer division by 2 as in C — equal to
floor division for the nonnegative screen sizes). -/
def lensX (P : InvParams) (lx : ℤ) : ℚ :=
  ((lx - P.width_px / 2 : ℤ) : ℚ) * P.scale

/-- The lens-space y of output row `ly` (`y = −(ly − height_px/2)·scale`). -/
def lensY (P : InvParams) (ly : ℤ) : ℚ :=
  ((-(ly - P.height_px / 2) : ℤ) : ℚ) * P.scale

/-- One inverse-map pixel (the body of the `lx` loop, lens.c:1650–1665):
`none` means the builder aborts (`return false`). -/
def inverse_pixel (P : InvParams) (ly lx : ℤ) (st : LMState) : Option LMState :=
  match lua_lens_inverse (P.lens_inverse (lensX P lx) (lensY P ly)) with
  | .skip => some st
  | .err => none
  | .ray r => some (set_lensmap_from_ray P lx ly r st)

/-- The `lx` loop of one output row; `fuel` counts the remaining
iterations (`width_px − lx`); the boolean is the abort flag (the C
returns immediately on an error, so the remaining pixels are untouched). -/
def inverse_row (P : InvParams) (ly : ℤ) : ℕ → ℤ → LMState → LMState × Bool
  | 0, _, st => (st, false)
  | fuel + 1, lx, st =>
    match inverse_pixel P ly lx st with
    | none => (st, true)
    | some st2 => inverse_row P ly fuel (lx + 1) st2

/-- `resume_lensmap_inverse` (lens.c:1631): processes rows from the cursor
`ly` downward.  The wall clock is modelled by `budget`, the number of row
iterations the clock allows in this call (the check sits at the head of
the row loop, before the row is processed).  Result: the new cursor, the
lens map, and the `working` flag (true = the clock expired and the builder
yielded). -/
def resume_lensmap_inverse (P : InvParams) :
    ℕ → ℤ → LMState → ℤ × LMState × Bool
  | 0, ly, st => if ly < 0 then (ly, st, false) else (ly, st, true)
  | b + 1, ly, st =>
    if ly < 0 then (ly, st, false)
    else
      match inverse_row P ly P.width_px.toNat 0 st with
      | (st2, true) => (ly, st2, false)
      | (st2, false) => resume_lensmap_inverse P b (ly - 1) st2

/-- First column of row `ly` (scanning upward from `lx`) whose script call
errs, if any. -/
def inverse_row_err (P : InvParams) (ly : ℤ) : ℕ → ℤ → Option ℤ
  | 0, _ => none
  | fuel + 1, lx =>
    match lua_lens_inverse (P.lens_inverse (lensX P lx) (lensY P ly)) with
    | .err => some lx
    | _ => inverse_row_err P ly fuel (lx + 1)

/-- First erroring pixel of a build starting at row `ly` (rows descend),
as `(row, column)`. -/
def buildFirstErr (P : InvParams) : ℕ → ℤ → Option (ℤ × ℤ)
  | 0, _ => none
  | fuel + 1, ly =>
    if ly < 0 then none
    else
      match inverse_row_err P ly P.width_px.toNat 0 with
      | some lx => some (ly, lx)
      | none => buildFirstErr P fuel (ly - 1)

/-- Equality of two states at one lens pixel (pointer and tint). -/
def pixtintEq (s t : LMState) (a c : ℤ) : Prop :=
  s.pix a c = t.pix a c ∧ s.tint a c = t.tint a c

theorem pixtintEq_refl (s : LMState) (a c : ℤ) : pixtintEq s s a c :=
  ⟨rfl, rfl⟩

theorem pixtintEq_trans {s t u : LMState} {a c : ℤ}
    (h1 : pixtintEq s t a c) (h2 : pixtintEq t u a c) : pixtintEq s u a c :=
  ⟨h1.1.trans h2.1, h1.2.trans h2.2⟩

theorem set_lensmap_grid_ne (P : MapParams) (lx ly px py pi : ℤ)
    (st : LMState) (a c : ℤ) (h : ¬(a = lx ∧ c = ly)) :
    pixtintEq (set_lensmap_grid P lx ly px py pi st) st a c := by
  unfold set_lensmap_grid
  dsimp only
  split_ifs
  · exact pixtintEq_refl st a c
  · refine ⟨rfl, ?_⟩
    show (if a = lx ∧ c = ly then pi else st.tint a c) = st.tint a c
    rw [if_neg h]

theorem set_lensmap_from_plate_ne (P : MapParams) (lx ly px py pi : ℤ)
    (st : LMState) (a c : ℤ) (h : ¬(a = lx ∧ c = ly)) :
    pixtintEq (set_lensmap_from_plate P lx ly px py pi st) st a c := by
  unfold set_lensmap_from_plate
  split_ifs
  · exact pixtintEq_refl st a c
  · exact pixtintEq_refl st a c
  · refine pixtintEq_trans (set_lensmap_grid_ne P lx ly px py pi _ a c h) ?_
    refine ⟨?_, rfl⟩
    show (if a = lx ∧ c = ly then some (pi, px, py) else st.pix a c) = st.pix a c
    rw [if_neg h]

theorem set_lensmap_from_ray_ne (P : InvParams) (lx ly : ℤ) (ray : Vec3 ℚ)
    (st : LMState) (a c : ℤ) (h : ¬(a = lx ∧ c = ly)) :
    pixtintEq (set_lensmap_from_ray P lx ly ray st) st a c := by
  unfold set_lensmap_from_ray set_lensmap_from_plate_uv
  dsimp only
  split_ifs
  · exact pixtintEq_refl st a c
  · exact set_lensmap_from_plate_ne _ lx ly _ _ _ st a c h
  · exact pixtintEq_refl st a c

theorem inverse_pixel_ne (P : InvParams) (ly lx : ℤ) (st st2 : LMState)
    (hp : inverse_pixel P ly lx st = some st2) (a c : ℤ)
    (h : ¬(a = lx ∧ c = ly)) : pixtintEq st2 st a c := by
  unfold inverse_pixel at hp
  cases hstat : lua_lens_inverse (P.lens_inverse (lensX P lx) (lensY P ly)) with
  | skip =>
    rw [hstat] at hp
    cases hp
    exact pixtintEq_refl st a c
  | err =>
    rw [hstat] at hp
    cases hp
  | ray r =>
    rw [hstat] at hp
    cases hp
    exact set_lensmap_from_ray_ne P lx ly r st a c h

theorem inverse_row_err_bounds (P : InvParams) (ly : ℤ) :
    ∀ (fuel : ℕ) (lx lxE : ℤ),
      inverse_row_err P ly fuel lx = some lxE → lx ≤ lxE ∧ lxE < lx + fuel := by
  intro fuel
  induction fuel with
  | zero => intro lx lxE h; cases h
  | succ fuel ih =>
    intro lx lxE h
    unfold inverse_row_err at h
    cases hstat : lua_lens_inverse (P.lens_inverse (lensX P lx) (lensY P ly)) with
    | err =>
      rw [hstat] at h
      cases h
      omega
    | skip =>
      rw [hstat] at h
      have := ih (lx + 1) lxE h
      omega
    | ray r =>
      rw [hstat] at h
      have := ih (lx + 1) lxE h
      omega

theorem inverse_row_abort (P : InvParams) (ly : ℤ) :
    ∀ (fuel : ℕ) (lx : ℤ) (st : LMState) (lxE : ℤ),
      inverse_row_err P ly fuel lx = some lxE →
      (inverse_row P ly fuel lx st).2 = true ∧
      ∀ a c : ℤ, (c ≠ ly ∨ lxE ≤ a ∨ a < lx) →
        pixtintEq (inverse_row P ly fuel lx st).1 st a c := by
  intro fuel
  induction fuel with
  | zero => intro lx st lxE h; cases h
  | succ fuel ih =>
    intro lx st lxE h
    unfold inverse_row_err at h
    unfold inverse_row inverse_pixel
    cases hstat : lua_lens_inverse (P.lens_inverse (lensX P lx) (lensY P ly)) with
    | err =>
      rw [hstat] at h
      cases h
      exact ⟨rfl, fun a c _ => pixtintEq_refl st a c⟩
    | skip =>
      rw [hstat] at h
      obtain ⟨hab, hreg⟩ := ih (lx + 1) st lxE h
      refine ⟨hab, fun a c hr => hreg a c ?_⟩
      rcases hr with hr | hr | hr
      · exact Or.inl hr
      · exact Or.inr (Or.inl hr)
      · exact Or.inr (Or.inr (by omega))
    | ray r =>
      rw [hstat] at h
      have hb := inverse_row_err_bounds P ly fuel (lx + 1) lxE h
      obtain ⟨hab, hreg⟩ :=
        ih (lx + 1) (set_lensmap_from_ray P lx ly r st) lxE h
      refine ⟨hab, fun a c hr => ?_⟩
      have hnw : ¬(a = lx ∧ c = ly) := by
        rintro ⟨rfl, rfl⟩
        rcases hr with hr | hr | hr
        · exact hr rfl
        · omega
        · omega
      refine pixtintEq_trans (hreg a c ?_) (set_lensmap_from_ray_ne P lx ly r st a c hnw)
      rcases hr with hr | hr | hr
      · exact Or.inl hr
      · exact Or.inr (Or.inl hr)
      · exact Or.inr (Or.inr (by omega))

theorem inverse_row_clean (P : InvParams) (ly : ℤ) :
    ∀ (fuel : ℕ) (lx : ℤ) (st : LMState),
      inverse_row_err P ly fuel lx = none →
      (inverse_row P ly fuel lx st).2 = false ∧
      ∀ a c : ℤ,
        (c ≠ ly ∨ a < lx ∨
          lua_lens_inverse (P.lens_inverse (lensX P a) (lensY P ly)) =
            InvStatus.skip) →
        pixtintEq (inverse_row P ly fuel lx st).1 st a c := by
  intro fuel
  induction fuel with
  | zero =>
    intro lx st _
    exact ⟨rfl, fun a c _ => pixtintEq_refl st a c⟩
  | succ fuel ih =>
    intro lx st h
    unfold inverse_row_err at h
    unfold inverse_row inverse_pixel
    cases hstat : lua_lens_inverse (P.lens_inverse (lensX P lx) (lensY P ly)) with
    | err =>
      rw [hstat] at h
      cases h
    | skip =>
      rw [hstat] at h
      obtain ⟨hfl, hreg⟩ := ih (lx + 1) st h
      refine ⟨hfl, fun a c hr => hreg a c ?_⟩
      rcases hr with hr | hr | hr
      · exact Or.inl hr
      · exact Or.inr (Or.inl (by omega))
      · exact Or.inr (Or.inr hr)
    | ray r =>
      rw [hstat] at h
      obtain ⟨hfl, hreg⟩ := ih (lx + 1) (set_lensmap_from_ray P lx ly r st) h
      refine ⟨hfl, fun a c hr => ?_⟩
      have hnw : ¬(a = lx ∧ c = ly) := by
        rintro ⟨rfl, rfl⟩
        rcases hr with hr | hr | hr
        · exact hr rfl
        · omega
        · rw [hstat] at hr
          cases hr
      refine pixtintEq_trans (hreg a c ?_) (set_lensmap_from_ray_ne P lx ly r st a c hnw)
      rcases hr with hr | hr | hr
      · exact Or.inl hr
      · exact Or.inr (Or.inl (by omega))
      · exact Or.inr (Or.inr hr)

theorem resume_inverse_eq_done (P : InvParams) (b : ℕ) (ly : ℤ) (st : LMState)
    (hly : ly < 0) : resume_lensmap_inverse P b ly st = (ly, st, false) := by
  cases b <;> (conv_lhs => rw [resume_lensmap_inverse]) <;> rw [if_pos hly]

theorem resume_inverse_eq_yield (P : InvParams) (ly : ℤ) (st : LMState)
    (hly : ¬ ly < 0) : resume_lensmap_inverse P 0 ly st = (ly, st, true) := by
  conv_lhs => rw [resume_lensmap_inverse]
  rw [if_neg hly]

theorem resume_inverse_eq_abort (P : InvParams) (b : ℕ) (ly : ℤ) (st : LMState)
    (hly : ¬ ly < 0)
    (hflag : (inverse_row P ly P.width_px.toNat 0 st).2 = true) :
    resume_lensmap_inverse P (b + 1) ly st =
      (ly, (inverse_row P ly P.width_px.toNat 0 st).1, false) := by
  conv_lhs => rw [resume_lensmap_inverse]
  rw [if_neg hly,
    show inverse_row P ly P.width_px.toNat 0 st =
      ((inverse_row P ly P.width_px.toNat 0 st).1, true) from by rw [← hflag]]

theorem resume_inverse_eq_step (P : InvParams) (b : ℕ) (ly : ℤ) (st : LMState)
    (hly : ¬ ly < 0)
    (hflag : (inverse_row P ly P.width_px.toNat 0 st).2 = false) :
    resume_lensmap_inverse P (b + 1) ly st =
      resume_lensmap_inverse P b (ly - 1)
        (inverse_row P ly P.width_px.toNat 0 st).1 := by
  conv_lhs => rw [resume_lensmap_inverse]
  rw [if_neg hly,
    show inverse_row P ly P.width_px.toNat 0 st =
      ((inverse_row P ly P.width_px.toNat 0 st).1, false) from by rw [← hflag]]

theorem buildFirstErr_row_le (P : InvParams) :
    ∀ (fuel : ℕ) (ly ly0 lx0 : ℤ),
      buildFirstErr P fuel ly = some (ly0, lx0) → ly0 ≤ ly ∧ 0 ≤ ly0 := by
  intro fuel
  induction fuel with
  | zero => intro ly ly0 lx0 h; cases h
  | succ fuel ih =>
    intro ly ly0 lx0 h
    unfold buildFirstErr at h
    by_cases hly : ly < 0
    · rw [if_pos hly] at h
      cases h
    · rw [if_neg hly] at h
      cases hre : inverse_row_err P ly P.width_px.toNat 0 with
      | some lx =>
        rw [hre] at h
        cases h
        omega
      | none =>
        rw [hre] at h
        have := ih (ly - 1) ly0 lx0 h
        omega

theorem resume_inverse_abort_spec (P : InvParams) :
    ∀ (fuel b : ℕ) (ly : ℤ) (st : LMState) (ly0 lx0 : ℤ),
      buildFirstErr P fuel ly = some (ly0, lx0) → fuel ≤ b →
      (resume_lensmap_inverse P b ly st).1 = ly0 ∧
      (resume_lensmap_inverse P b ly st).2.2 = false ∧
      ∀ a c : ℤ, (c < ly0 ∨ (c = ly0 ∧ lx0 ≤ a)) →
        pixtintEq (resume_lensmap_inverse P b ly st).2.1 st a c := by
  intro fuel
  induction fuel with
  | zero => intro b ly st ly0 lx0 h _; cases h
  | succ fuel ih =>
    intro b ly st ly0 lx0 h hb
    unfold buildFirstErr at h
    by_cases hly : ly < 0
    · rw [if_pos hly] at h
      cases h
    rw [if_neg hly] at h
    obtain ⟨b2, rfl⟩ : ∃ b2, b = b2 + 1 := ⟨b - 1, by omega⟩
    cases hre : inverse_row_err P ly P.width_px.toNat 0 with
    | some lx =>
      rw [hre] at h
      simp only [Option.some.injEq, Prod.mk.injEq] at h
      obtain ⟨rfl, rfl⟩ := h
      obtain ⟨hab, hreg⟩ := inverse_row_abort P ly P.width_px.toNat 0 st lx hre
      rw [resume_inverse_eq_abort P b2 ly st hly hab]
      refine ⟨rfl, rfl, fun a c hr => hreg a c ?_⟩
      rcases hr with hr | ⟨rfl, hr⟩
      · exact Or.inl (by omega)
      · exact Or.inr (Or.inl hr)
    | none =>
      rw [hre] at h
      obtain ⟨hfl, hreg⟩ := inverse_row_clean P ly P.width_px.toNat 0 st hre
      rw [resume_inverse_eq_step P b2 ly st hly hfl]
      have hle := buildFirstErr_row_le P fuel (ly - 1) ly0 lx0 h
      obtain ⟨h1, h2, h3⟩ := ih b2 (ly - 1)
        (inverse_row P ly P.width_px.toNat 0 st).1 ly0 lx0 h (by omega)
      refine ⟨h1, h2, fun a c hr => ?_⟩
      refine pixtintEq_trans (h3 a c hr) (hreg a c ?_)
      rcases hr with hr | ⟨rfl, _⟩
      · exact Or.inl (by omega)
      · exact Or.inl (by omega)

theorem resume_inverse_clean_spec (P : InvParams) :
    ∀ (fuel b : ℕ) (ly : ℤ) (st : LMState),
      buildFirstErr P fuel ly = none → (ly + 1).toNat ≤ fuel → fuel ≤ b →
      (resume_lensmap_inverse P b ly st).2.2 = false ∧
      ∀ a c : ℤ,
        (ly < c ∨
          lua_lens_inverse (P.lens_inverse (lensX P a) (lensY P c)) =
            InvStatus.skip) →
        pixtintEq (resume_lensmap_inverse P b ly st).2.1 st a c := by
  intro fuel
  induction fuel with
  | zero =>
    intro b ly st _ hf _
    have hly : ly < 0 := by omega
    rw [resume_inverse_eq_done P b ly st hly]
    exact ⟨rfl, fun a c _ => pixtintEq_refl st a c⟩
  | succ fuel ih =>
    intro b ly st h hf hb
    by_cases hly : ly < 0
    · rw [resume_inverse_eq_done P b ly st hly]
      exact ⟨rfl, fun a c _ => pixtintEq_refl st a c⟩
    unfold buildFirstErr at h
    rw [if_neg hly] at h
    obtain ⟨b2, rfl⟩ : ∃ b2, b = b2 + 1 := ⟨b - 1, by omega⟩
    cases hre : inverse_row_err P ly P.width_px.toNat 0 with
    | some lx =>
      rw [hre] at h
      cases h
    | none =>
      rw [hre] at h
      obtain ⟨hfl, hreg⟩ := inverse_row_clean P ly P.width_px.toNat 0 st hre
      rw [resume_inverse_eq_step P b2 ly st hly hfl]
      obtain ⟨h2, h3⟩ := ih b2 (ly - 1)
        (inverse_row P ly P.width_px.toNat 0 st).1 h (by omega) (by omega)
      refine ⟨h2, fun a c hr => ?_⟩
      refine pixtintEq_trans (h3 a c ?_) (hreg a c ?_)
      · rcases hr with hr | hr
        · exact Or.inl (by omega)
        · exact Or.inr hr
      · rcases hr with hr | hr
        · exact Or.inl (by omega)
        · by_cases hc : c = ly
          · subst hc
            exact Or.inr (Or.inr hr)
          · exact Or.inl hc

/-- C6: during an inverse build, the first malformed scripted return
(status −1 of `lua_lens_inverse`) aborts the build — the builder returns
`working = false` with the cursor still at the erroring row, and neither
the erroring pixel nor any pixel after it in processing order (same row at
or right of the error, or any lower row) is written; a single nil return
only skips its own pixel: in an error-free build every skipped pixel's
lens-map entry is left exactly as allocated (null in a fresh build). -/
theorem claim_C6_error_abort_and_nil_skip (P : InvParams) (st0 : LMState)
    (b : ℕ) (hb : P.height_px.toNat ≤ b) :
    (∀ ly0 lx0 : ℤ,
      buildFirstErr P P.height_px.toNat (P.height_px - 1) = some (ly0, lx0) →
      (resume_lensmap_inverse P b (P.height_px - 1) st0).1 = ly0 ∧
      (resume_lensmap_inverse P b (P.height_px - 1) st0).2.2 = false ∧
      ∀ a c : ℤ, (c < ly0 ∨ (c = ly0 ∧ lx0 ≤ a)) →
        (resume_lensmap_inverse P b (P.height_px - 1) st0).2.1.pix a c =
          st0.pix a c ∧
        (resume_lensmap_inverse P b (P.height_px - 1) st0).2.1.tint a c =
          st0.tint a c) ∧
    (buildFirstErr P P.height_px.toNat (P.height_px - 1) = none →
      ∀ a c : ℤ,
        lua_lens_inverse (P.lens_inverse (lensX P a) (lensY P c)) =
          InvStatus.skip →
        (resume_lensmap_inverse P b (P.height_px - 1) st0).2.1.pix a c =
          st0.pix a c) := by
  constructor
  · intro ly0 lx0 h
    exact resume_inverse_abort_spec P P.height_px.toNat b (P.height_px - 1)
      st0 ly0 lx0 h hb
  · intro h a c hskip
    have hf : (P.height_px - 1 + 1).toNat ≤ P.height_px.toNat := by omega
    exact ((resume_inverse_clean_spec P P.height_px.toNat b (P.height_px - 1)
      st0 h hf hb).2 a c (Or.inr hskip)).1

/-- Concrete inverse-build instance for the C6 witness: a 2×2 viewport
whose scripted `lens_inverse` returns a lone string (a malformed value) at
lens coordinates `(0, 1)` — output pixel `(lx, ly) = (1, 0)` — and nil
everywhere else. -/
def c6P : InvParams :=
  { width_px := 2, height_px := 2, platesize := 1
    numcells := 10, cell_size := 4, pad_size := 1
    scale := 1, plates := [], globe_plate := none
    lens_inverse := fun x y =>
      if x = 0 ∧ y = 1 then [LuaVal.str "boom"] else [LuaVal.nil] }

section RatEvalC6

attribute [local semireducible] Rat.add Rat.mul Rat.inv Rat.sub
set_option maxRecDepth 8000

/-- Witness for C6 at `c6P`: the build aborts with `working = false` and
the erroring pixel `(1, 0)` is left untouched. -/
theorem claim_C6_witness :
    (resume_lensmap_inverse c6P 2 (c6P.height_px - 1) blankLM).2.2 = false ∧
    (resume_lensmap_inverse c6P 2 (c6P.height_px - 1) blankLM).2.1.pix 1 0 =
      blankLM.pix 1 0 ∧
    (resume_lensmap_inverse c6P 2 (c6P.height_px - 1) blankLM).2.1.tint 1 0 =
      blankLM.tint 1 0 := by
  have h := (claim_C6_error_abort_and_nil_skip c6P blankLM 2 (by decide)).1
    0 1 (by decide)
  exact ⟨h.2.1, (h.2.2 1 0 (Or.inr ⟨rfl, le_refl 1⟩)).1,
    (h.2.2 1 0 (Or.inr ⟨rfl, le_refl 1⟩)).2⟩

end RatEvalC6

/-! ## The forward lens-map builder (lens.c:1673–1910)

For each plate texel the forward build calls the scripted `lens_forward`
on `plate_uv_to_ray(plate, u, v)` and rasterizes quads between adjacent
boundary samples.  Two composites pass through that real-valued ray
(whose normalization involves `sqrt`) and are therefore the oracle
boundary of the rational model, as pure functions of `(plate, u, v)`:

* `fwd`, the value of `lua_lens_forward` on the texel's ray
  (`plate_uv_to_ray` is injective in `(u, v)` on a proper plate frame, so
  any such composite is realized by some script);
* `owner`, the value of `ray_to_plate_index` on the texel's ray — the
  overlap-culling test of lens.c:1856–1860.

Everything else — the screen-coordinate scaling of `uv_to_screen`, the
two scanline buffers, the quad rasterizer and the time-sliced control
flow — is modelled from the source. -/

/-- Result of one `lua_lens_forward` call (status 1 / 0 / −1 of
lens.c:1036). -/
inductive FwdStatus
  | xy (x y : ℚ)
  | skip
  | err
deriving DecidableEq

/-- Result of `uv_to_screen` (lens.c:1675). -/
inductive UvScreen
  | ok (lx ly : ℤ)
  | skip
  | err
deriving DecidableEq

/-- Parameters of the forward builder. -/
structure FwdParams extends MapParams where
  scale : ℚ
  numplates : ℤ
  fwd : ℤ → ℚ → ℚ → FwdStatus
  owner : ℤ → ℚ → ℚ → ℤ

/-- `uv_to_screen` (lens.c:1675): scripted forward map, then
`lx = (int)(x/scale + width_px/2)`, `ly = (int)(−y/scale + height_px/2)`
(`width_px/2` is C integer division). -/
def uv_to_screen (P : FwdParams) (plate : ℤ) (u v : ℚ) : UvScreen :=
  match P.fwd plate u v with
  | .skip => .skip
  | .err => .err
  | .xy x y =>
    .ok (cTrunc (x / P.scale + ((P.width_px / 2 : ℤ) : ℚ)))
      (cTrunc (-y / P.scale + ((P.height_px / 2 : ℤ) : ℚ)))

/-- The x-intersection of one quad edge with scanline `y`
(lens.c:1755–1763): `(int)(ix + (y−iy)/dy·dx)` when the edge straddles the
scanline. -/
def quadEdgeX (y : ℤ) (pi pj : ℤ × ℤ) : Option ℤ :=
  if (pi.2 < y ∧ y ≤ pj.2) ∨ (pj.2 < y ∧ y ≤ pi.2) then
    some (cTrunc ((pi.1 : ℚ) +
      ((y - pi.2 : ℤ) : ℚ) / ((pj.2 - pi.2 : ℤ) : ℚ) * ((pj.1 - pi.1 : ℤ) : ℚ)))
  else none

/-- The two x-intersections of scanline `y` with the quad `tl-tr-br-bl`
(edges visited in the source's order `(0,3), (1,0), (2,1), (3,2)` over
`p = {tl, tr, br, bl}`, stopping after two hits; slots start at
`{minx, maxx}`). -/
def quadTx (y : ℤ) (tl tr br bl : ℤ × ℤ) (minx maxx : ℤ) : ℤ × ℤ :=
  let step := fun (acc : ℤ × ℤ × ℕ) (e : (ℤ × ℤ) × (ℤ × ℤ)) =>
    if 2 ≤ acc.2.2 then acc
    else
      match quadEdgeX y e.1 e.2 with
      | none => acc
      | some t =>
        if acc.2.2 = 0 then (t, acc.2.1, 1) else (acc.1, t, 2)
  let r := [(tl, bl), (tr, tl), (br, tr), (bl, br)].foldl step (minx, maxx, 0)
  (r.1, r.2.1)

/-- Horizontal run of `set_lensmap_from_plate` writes (the span fills of
`drawQuad`); `n` is the number of pixels, `x0` the leftmost. -/
def spanFill (P : MapParams) (yy px py plate_index : ℤ) :
    ℕ → ℤ → LMState → LMState
  | 0, _, st => st
  | n + 1, x0, st =>
    spanFill P yy px py plate_index n (x0 + 1)
      (set_lensmap_from_plate P x0 yy px py plate_index st)

/-- Vertical run of writes (the vertical-line case of `drawQuad`, which
keeps `x = tl.x`). -/
def vspanFill (P : MapParams) (xx px py plate_index : ℤ) :
    ℕ → ℤ → LMState → LMState
  | 0, _, st => st
  | n + 1, y0, st =>
    vspanFill P xx px py plate_index n (y0 + 1)
      (set_lensmap_from_plate P xx y0 px py plate_index st)

/-- The scanline loop of the general quad case (lens.c:1749–1785): order
the two intersections, abandon the whole quad when the span exceeds the
20-pixel wraparound guard (prior scanlines stay drawn), otherwise fill
the span inclusively. -/
def quadRows (P : MapParams) (tl tr br bl : ℤ × ℤ) (minx maxx : ℤ)
    (plate_index px py : ℤ) : ℕ → ℤ → LMState → LMState
  | 0, _, st => st
  | n + 1, y, st =>
    let t := quadTx y tl tr br bl minx maxx
    let s := if t.2 < t.1 then (t.2, t.1) else t
    if 20 < s.2 - s.1 then st
    else
      quadRows P tl tr br bl minx maxx plate_index px py n (y + 1)
        (spanFill P y px py plate_index (s.2 - s.1 + 1).toNat s.1 st)

/-- `drawQuad` (lens.c:1694): bounding box (folded with the source's
`if t < min … else if t > max` update), the 20-pixel wraparound guard,
the point / horizontal line / vertical line degenerate cases (which use
`tl`'s coordinates where the source does), and the scanline loop. -/
def drawQuad (P : MapParams) (tl tr bl br : ℤ × ℤ)
    (plate_index px py : ℤ) (st : LMState) : LMState :=
  let x := tl.1
  let y := tl.2
  let stepm := fun (mm : ℤ × ℤ) (t : ℤ) =>
    if t < mm.1 then (t, mm.2) else if mm.2 < t then (mm.1, t) else mm
  let xb := stepm (stepm (stepm (x, x) tr.1) br.1) bl.1
  let yb := stepm (stepm (stepm (y, y) tr.2) br.2) bl.2
  if 20 < |xb.1 - xb.2| ∨ 20 < |yb.1 - yb.2| then st
  else if yb.1 = yb.2 ∧ xb.1 = xb.2 then
    set_lensmap_from_plate P x y px py plate_index st
  else if yb.1 = yb.2 then
    spanFill P yb.1 px py plate_index (xb.2 - xb.1 + 1).toNat xb.1 st
  else if xb.1 = xb.2 then
    vspanFill P x px py plate_index (yb.2 - yb.1 + 1).toNat yb.1 st
  else
    quadRows P tl tr br bl xb.1 xb.2 plate_index px py
      (yb.2 - yb.1 + 1).toNat yb.1 st

/-- One scanline-buffer computation (lens.c:1810–1847): the `platesize+1`
boundary points of a texture row at `v`; entry `i` models `buf[2i]`,
`buf[2i+1]`.  A `skip` leaves the entry stale (and at `px = 0` the
`continue` also skips the right endpoint of iteration 0); an `err`
aborts the builder (the flag). -/
def scanRowGo (P : FwdParams) (plate : ℤ) (v : ℚ) :
    ℕ → ℕ → (ℤ → ℤ × ℤ) → (ℤ → ℤ × ℤ) × Bool
  | 0, _, buf => (buf, false)
  | fuel + 1, px, buf =>
    if px = 0 then
      match uv_to_screen P plate (((px : ℚ) - 1/2) / (P.platesize : ℚ)) v with
      | .err => (buf, true)
      | .skip => scanRowGo P plate v fuel (px + 1) buf
      | .ok lx ly =>
        let buf0 := fun i => if i = (0 : ℤ) then (lx, ly) else buf i
        match uv_to_screen P plate (((px : ℚ) + 1/2) / (P.platesize : ℚ)) v with
        | .err => (buf0, true)
        | .skip => scanRowGo P plate v fuel (px + 1) buf0
        | .ok lx2 ly2 =>
          scanRowGo P plate v fuel (px + 1)
            (fun i => if i = (px : ℤ) + 1 then (lx2, ly2) else buf0 i)
    else
      match uv_to_screen P plate (((px : ℚ) + 1/2) / (P.platesize : ℚ)) v with
      | .err => (buf, true)
      | .skip => scanRowGo P plate v fuel (px + 1) buf
      | .ok lx2 ly2 =>
        scanRowGo P plate v fuel (px + 1)
          (fun i => if i = (px : ℤ) + 1 then (lx2, ly2) else buf i)

/-- All boundary points of one texture row. -/
def scanRow (P : FwdParams) (plate : ℤ) (v : ℚ) (buf : ℤ → ℤ × ℤ) :
    (ℤ → ℤ × ℤ) × Bool :=
  scanRowGo P plate v P.platesize.toNat 0 buf

/-- The per-texel quad loop of one texture row (lens.c:1851–1864): texels
whose ray resolves to another plate are culled; otherwise a quad is drawn
between the boundary points `top[px], top[px+1], bot[px], bot[px+1]`. -/
def rowQuads (P : FwdParams) (plate py : ℤ) (top bot : ℤ → ℤ × ℤ) :
    ℕ → ℤ → LMState → LMState
  | 0, _, st => st
  | fuel + 1, px, st =>
    let u := (px : ℚ) / (P.platesize : ℚ)
    let v := (py : ℚ) / (P.platesize : ℚ)
    if P.owner plate u v ≠ plate then
      rowQuads P plate py top bot fuel (px + 1) st
    else
      rowQuads P plate py top bot fuel (px + 1)
        (drawQuad P.toMapParams (top px) (top (px + 1)) (bot px) (bot (px + 1))
          plate px py st)

/-- `lens_builder.forward_state` plus the lens map.  `bufA`/`bufB` are the
two `malloc`ed scanline buffers; `forward_state.top` and
`forward_state.bot` always point at `bufA` and `bufB` respectively —
`resume_lensmap_forward` swaps only its local pointer copies, which are
re-initialized from the state at the start of every call. -/
structure FwdState where
  plate_index : ℤ
  py : ℤ
  bufA : ℤ → ℤ × ℤ
  bufB : ℤ → ℤ × ℤ
  lm : LMState

/-- The buffer a local pointer designates: with `swapped = false` the
local `top` is `bufA` and the local `bot` is `bufB`. -/
def fwdReadBuf (s : FwdState) (swapped wantTop : Bool) : ℤ → ℤ × ℤ :=
  if wantTop = swapped then s.bufB else s.bufA

/-- Writing through a local pointer into the designated buffer. -/
def fwdWriteBuf (s : FwdState) (swapped wantTop : Bool)
    (newbuf : ℤ → ℤ × ℤ) : FwdState :=
  if wantTop = swapped then { s with bufB := newbuf } else { s with bufA := newbuf }

/-- The body of one inner-loop iteration of `resume_lensmap_forward`
(lens.c:1806–1864), after the clock check: compute the lower boundary
afresh at the first row of a plate, otherwise swap the local top/bot
pointers; compute the upper boundary; draw the quads.  Result flag:
aborted (`return false`). -/
def fwdRowStep (P : FwdParams) (s0 : FwdState) (swapped0 : Bool) :
    FwdState × Bool × Bool :=
  let first := s0.py = P.platesize - 1
  let swapped := if first then swapped0 else !swapped0
  let botres :=
    if first then
      scanRow P s0.plate_index (((s0.py : ℚ) + 1/2) / (P.platesize : ℚ))
        (fwdReadBuf s0 swapped false)
    else (fwdReadBuf s0 swapped false, false)
  if botres.2 then (fwdWriteBuf s0 swapped false botres.1, swapped, true)
  else
    let s1 := fwdWriteBuf s0 swapped false botres.1
    let topres :=
      scanRow P s1.plate_index (((s1.py : ℚ) - 1/2) / (P.platesize : ℚ))
        (fwdReadBuf s1 swapped true)
    if topres.2 then (fwdWriteBuf s1 swapped true topres.1, swapped, true)
    else
      let s2 := fwdWriteBuf s1 swapped true topres.1
      let top := fwdReadBuf s2 swapped true
      let bot := fwdReadBuf s2 swapped false
      ({ s2 with
          lm := rowQuads P s2.plate_index s2.py top bot P.platesize.toNat 0 s2.lm },
        swapped, false)

/-- Outcome of the inner row loop of one call. -/
inductive FwdOutcome
  | yielded (s : FwdState)
  | aborted (s : FwdState)
  | plateDone (s : FwdState) (b : ℕ) (swapped : Bool)

/-- The inner `for (; *py >= 0; --(*py))` loop (lens.c:1800): the clock is
checked at the head of each iteration (`budget` = rows the clock still
allows in this call); the local `swapped` flag persists across rows of
the same call only. -/
def fwdRows (P : FwdParams) : ℕ → FwdState → Bool → FwdOutcome
  | b, s, swapped =>
    if s.py < 0 then .plateDone s b swapped
    else
      match b with
      | 0 => .yielded s
      | bb + 1 =>
        let r := fwdRowStep P s swapped
        if r.2.2 then .aborted r.1
        else fwdRows P bb { r.1 with py := r.1.py - 1 } r.2.1

/-- The outer plate loop (lens.c:1797): on finishing a plate's rows the
row cursor resets to `platesize − 1` and the plate index advances; the
loop ends (and the C frees the scanline buffers) when the plate index
reaches `numplates`.  `pf` is fuel for the loop; `numplates.toNat + 1`
always suffices. -/
def fwdPlates (P : FwdParams) : ℕ → ℕ → FwdState → Bool → FwdState × Bool
  | 0, _, s, _ => (s, false)
  | pf + 1, b, s, swapped =>
    if P.numplates ≤ s.plate_index then (s, false)
    else
      match fwdRows P b s swapped with
      | .yielded s2 => (s2, true)
      | .aborted s2 => (s2, false)
      | .plateDone s2 b2 swapped2 =>
        fwdPlates P pf b2
          { s2 with plate_index := s2.plate_index + 1, py := P.platesize - 1 }
          swapped2

/-- One call of `resume_lensmap_forward` (lens.c:1788): `budget` is the
number of row iterations the wall clock allows in this call.  The local
top/bot pointer copies start unswapped on every call.  The boolean result
is the `working` flag. -/
def resume_lensmap_forward (P : FwdParams) (budget : ℕ) (s : FwdState) :
    FwdState × Bool :=
  fwdPlates P (P.numplates.toNat + 1) budget s false

/-- For contrast with the forward builder: the inverse builder's slicing
is exact.  A call that yields on the clock after `b1` rows, resumed with
budget `b2`, reaches exactly the state of a single call with budget
`b1 + b2` — cursor, lens map and working flag alike. -/
theorem inverse_slicing_exact (P : InvParams) :
    ∀ (b1 : ℕ) (b2 : ℕ) (ly : ℤ) (st : LMState),
      (resume_lensmap_inverse P b1 ly st).2.2 = true →
      resume_lensmap_inverse P b2 (resume_lensmap_inverse P b1 ly st).1
        (resume_lensmap_inverse P b1 ly st).2.1 =
      resume_lensmap_inverse P (b1 + b2) ly st := by
  intro b1
  induction b1 with
  | zero =>
    intro b2 ly st h
    by_cases hly : ly < 0
    · rw [resume_inverse_eq_done P 0 ly st hly] at h
      cases h
    · rw [resume_inverse_eq_yield P ly st hly]
      simp
  | succ b1 ih =>
    intro b2 ly st h
    by_cases hly : ly < 0
    · rw [resume_inverse_eq_done P (b1 + 1) ly st hly] at h
      cases h
    · cases hflag : (inverse_row P ly P.width_px.toNat 0 st).2 with
      | true =>
        rw [resume_inverse_eq_abort P b1 ly st hly hflag] at h
        cases h
      | false =>
        rw [resume_inverse_eq_step P b1 ly st hly hflag] at h ⊢
        rw [show b1 + 1 + b2 = (b1 + b2) + 1 by omega,
          resume_inverse_eq_step P (b1 + b2) ly st hly hflag]
        exact ih b2 (ly - 1) (inverse_row P ly P.width_px.toNat 0 st).1 h

/-- C5 failing input: a single-plate globe with `platesize = 3` on a
13×13 viewport, lens scale 1, and a (legal) scripted forward map whose
screen image of the texel grid is the affine
`(lx, ly) = (6u + 5, 6v + 5)` — realized as
`lens_forward = (6u − 1, 1 − 6v)` before the `uv_to_screen` scaling.
With one plate the culling composite `ray_to_plate_index ∘
plate_uv_to_ray` is constantly 0 (see `claim_C9_plate_index_in_range`). -/
def c5P : FwdParams :=
  { width_px := 13, height_px := 13, platesize := 3
    numcells := 10, cell_size := 4, pad_size := 1
    scale := 1, numplates := 1
    fwd := fun _ u v => FwdStatus.xy (6*u - 1) (1 - 6*v)
    owner := fun _ _ _ => 0 }

/-- The state set up by `create_lensmap_forward`: plate 0, row cursor
`platesize − 1`, freshly allocated scanline buffers, blank lens map. -/
def c5s0 : FwdState := ⟨0, 2, fun _ => (0, 0), fun _ => (0, 0), blankLM⟩

section RatEvalC5

attribute [local semireducible] Rat.add Rat.mul Rat.inv Rat.sub
set_option maxRecDepth 400000
set_option maxHeartbeats 1000000

/-- C5 (code bug): time-slicing the forward build changes the output.
With the clock expiring after two rows (before texture row `py = 0`), the
resumed call re-reads the scanline buffers in their original roles — the
local top/bot pointer swap of the previous call is not part of the saved
state — so the row-0 quads are rasterized against the stale boundary
(the `v = 1/2` row instead of `v = 1/6`): the sliced build writes output
pixel `(5, 7)` from plate texel `(0, 0)` whereas the uninterrupted build
leaves it mapped to texel `(0, 1)`. -/
theorem claim_C5_forward_slicing_mismatch :
    (resume_lensmap_forward c5P 2 c5s0).2 = true ∧
    (resume_lensmap_forward c5P 10 c5s0).2 = false ∧
    (resume_lensmap_forward c5P 10 (resume_lensmap_forward c5P 2 c5s0).1).2 =
      false ∧
    (resume_lensmap_forward c5P 10 c5s0).1.lm.pix 5 7 = some (0, 0, 1) ∧
    (resume_lensmap_forward c5P 10 (resume_lensmap_forward c5P 2 c5s0).1).1.lm.pix
      5 7 = some (0, 0, 0) := by
  decide

end RatEvalC5

end Blinky
